import Mathlib

/-!
# daemon/HttpServer.cpp — shallow embedding

A verification development for `HttpRequest` / `HttpServer` of `daemon/HttpServer.cpp`.

* `std::string` / `std::vector<char>` values are `List Char` (`Bytes`).
* `size_t` is `Nat`; the one place where the source relies on unsigned wrap-around
  (`n-2` in the scan loop of `on_header`) is written with an explicit `% 2^64`.
* A read outside a buffer, a thrown exception and an exhausted iteration budget are
  explicit `Fault`s.
* The boost signals `onHeader_`, `onBody_`, `onError_` are lists of connected slots; the
  asynchronous operations handed to asio and every signal invocation are recorded, in
  order, in `trace`.  What a slot itself does is outside the file.
* The listener `HttpServer` holds its counters, the requests it has made and the actions it
  has performed; a member function of a request runs on the counters of its server
  (`withRequest`), which is what the pointer `hs_` amounts to.
-/

set_option autoImplicit false
set_option linter.dupNamespace false

namespace HttpServer

abbrev Bytes := List Char

/-- Ways in which an operation fails to return normally. -/
inductive Fault where
  | outOfBounds
  | badRange
  | fuel
  | exception (what : String)
  | assertion (what : String)
  deriving DecidableEq, Repr

/-! ## Helpers of `istat/strfunc.h` and of boost -/

/-- The C `isspace` class in the "C" locale. -/
def isspace (c : Char) : Bool :=
  c = ' ' || c = '\t' || c = '\n' || c = '\x0b' || c = '\x0c' || c = '\r'

/-- Modelled from the spec: `istat::split(src, ch, oLeft, oRight)` of `istat/strfunc.h`
(not part of the sources at hand).  "split on the first space into method and remainder",
"split on the first colon into name/value": the text before the first `ch` and the text after
it; a string without `ch` goes to the left part whole. -/
def split (src : Bytes) (ch : Char) : Bytes × Bytes :=
  (src.takeWhile (fun c => c != ch), (src.dropWhile (fun c => c != ch)).drop 1)

/-- Modelled from the spec: `istat::trim(str)` of `istat/strfunc.h` (not part of the sources at
hand).  "the remainder trimmed", "value trimmed": leading and trailing whitespace removed. -/
def trim (s : Bytes) : Bytes :=
  ((s.dropWhile isspace).reverse.dropWhile isspace).reverse

/-- Modelled from the spec: `istat::munge(key)` of `istat/strfunc.h` (not part of the sources at
hand).  "name case-normalized and trimmed": trimmed and put in lower case. -/
def munge (key : Bytes) : Bytes :=
  (trim key).map Char.toLower

/-- Value of a non-empty string of decimal digits, `none` when some character is not a digit. -/
def digitsValue : Bytes → Nat → Option Nat
  | [], acc => some acc
  | c :: cs, acc => if c.isDigit then digitsValue cs (10 * acc + (c.toNat - 48)) else none

/-- `boost::lexical_cast<size_t>(s)`: an optional sign, then decimal digits whose value fits
64 bits; a leading `-` negates modulo `2^64`.  Anything else throws `bad_lexical_cast`. -/
def lexical_cast_size_t (s : Bytes) : Except Fault Nat :=
  let body (ds : Bytes) : Option Nat :=
    if ds = [] then none else
      match digitsValue ds 0 with
      | some v => if v < 2 ^ 64 then some v else none
      | none => none
  let r : Option Nat :=
    match s with
    | '-' :: ds => (body ds).map (fun v => (2 ^ 64 - v) % 2 ^ 64)
    | '+' :: ds => body ds
    | ds => body ds
  match r with
  | some v => .ok v
  | none => .error (.exception "bad lexical cast")

/-- `boost::lexical_cast<std::string>(n)` for an unsigned `n`: its decimal digits. -/
def decimal (n : Nat) : Bytes := (Nat.repr n).toList

/-- `boost::lexical_cast<std::string>(code)` for an `int`: decimal digits, `-` first when
negative. -/
def decimalInt (code : Int) : Bytes :=
  if code < 0 then '-' :: decimal code.natAbs else decimal code.natAbs

/-! ## State -/

/-- The counters of `HttpServerInfo` (`sInfo_`). -/
structure HttpServerInfo where
  port : Int := 0
  numRequests : Int := 0
  numErrors : Int := 0
  httpErrors : Int := 0
  current : Int := 0
  deriving DecidableEq, Repr

/-- The three boost signals of a request. -/
inductive Signal where
  | onHeader
  | onBody
  | onError
  deriving DecidableEq, Repr

/-- Observable actions of a request, in the order in which the code performs them. -/
inductive Effect where
  /-- A signal is invoked: each of the slots connected at that moment is called once. -/
  | fire (sig : Signal) (slots : List Nat)
  /-- `async_read_until(socket_, header_, "\r\n\r\n", on_header)`. -/
  | asyncReadUntil
  /-- `async_read` of `count` bytes into `bodyData_` at `offset`, completing in `on_body`. -/
  | asyncRead (offset count : Nat)
  /-- `async_write` of the whole of `data`, completing in `on_reply`. -/
  | asyncWrite (data : Bytes)
  /-- `socket_.close()`. -/
  | socketClose
  /-- `currentGauge.value(v)`. -/
  | gauge (v : Int)
  deriving DecidableEq, Repr

/-- `boost::system::error_code`: a value and the category it belongs to. -/
inductive ErrCategory where
  | generic
  | system
  | misc
  deriving DecidableEq, Repr

structure error_code where
  value : Int
  category : ErrCategory
  deriving DecidableEq, Repr

/-- `boost::system::errc::make_error_code(boost::system::errc::success)`. -/
def errc_success : error_code := ⟨0, .generic⟩

/-- `boost::asio::error::eof`, of the misc category. -/
def asio_eof : Int := 2

/-- The members of `HttpRequest`, with the counters `hs_->sInfo_` of the server it points to. -/
structure HttpRequest where
  hs_sInfo_ : HttpServerInfo := {}
  socketOpen : Bool := true
  header_ : Bytes := []
  headerData_ : Bytes := []
  headerSize_ : Nat := 0
  method_ : Bytes := []
  url_ : Bytes := []
  version_ : Bytes := []
  headers_ : List (Bytes × Bytes) := []
  bodyData_ : Bytes := []
  bodyRead_ : Nat := 0
  reply_ : Bytes := []
  onHeader_ : List Nat := []
  onBody_ : List Nat := []
  onError_ : List Nat := []
  trace : List Effect := []
  deriving DecidableEq, Repr

/-! ## `std::map<std::string, std::string>` -/

/-- `m.find(key)`. -/
def mapFind : List (Bytes × Bytes) → Bytes → Option Bytes
  | [], _ => none
  | (k, v) :: t, key => if k = key then some v else mapFind t key

/-- `m[key] += value`: the entry is created empty when absent, then appended to.  (Entries are
kept in order of creation; the key order of `std::map` is not represented.) -/
def mapAppend : List (Bytes × Bytes) → Bytes → Bytes → List (Bytes × Bytes)
  | [], key, value => [(key, value)]
  | (k, v) :: t, key, value =>
    if k = key then (k, v ++ value) :: t else (k, v) :: mapAppend t key value

/-! ## Header phase -/

/-- `HttpRequest::error()`. -/
def error (r : HttpRequest) : HttpRequest :=
  { r with
    hs_sInfo_ := { r.hs_sInfo_ with numErrors := r.hs_sInfo_.numErrors + 1 }
    trace := r.trace ++ [Effect.fire .onError r.onError_]
    onError_ := []
    onBody_ := []
    onHeader_ := [] }

/-- `HttpRequest::parseMethod(data)`. -/
def parseMethod (r : HttpRequest) (data : Bytes) : HttpRequest :=
  let s1 := split data ' '
  let temp := trim s1.2
  let s2 := split temp ' '
  { r with method_ := s1.1, url_ := s2.1, version_ := s2.2 }

/-- `HttpRequest::parseHeader(data)`. -/
def parseHeader (r : HttpRequest) (data : Bytes) : HttpRequest :=
  let s := split data ':'
  let left := munge s.1
  let right := trim s.2
  { r with headers_ := mapAppend r.headers_ left right }

/-- `headerData_[i]`: a character of the string, the terminating NUL at `i = size()`, and a
read out of bounds beyond. -/
def charAt (d : Bytes) (i : Nat) : Except Fault Char :=
  if i < d.length then .ok (d.getD i '\x00')
  else if i = d.length then .ok '\x00'
  else .error .outOfBounds

/-- `std::string(&d[b], &d[e])`: the characters at `b .. e-1`. -/
def substring (d : Bytes) (b e : Nat) : Except Fault Bytes :=
  if b ≤ e ∧ e ≤ d.length then .ok ((d.drop b).take (e - b)) else .error .badRange

/-- `n - 2` on `size_t`. -/
def sizeMinus2 (n : Nat) : Nat := (n + 2 ^ 64 - 2) % 2 ^ 64

/-- How one iteration of the scan loop ends. -/
inductive Step where
  | next (first : Bool) (b : Nat) (r : HttpRequest)
  | done (r : HttpRequest)

/-- The test `headerData_[p+1] == '\r' && headerData_[p+2] == '\n'`, `c1` being
`headerData_[p+1]`: the second character is read only when the first one is a CR. -/
def endOfHeaders (d : Bytes) (p : Nat) (c1 : Char) : Except Fault Bool :=
  if c1 = '\r' then
    match charAt d (p + 2) with
    | .error e => .error e
    | .ok c2 => .ok (decide (c2 = '\n'))
  else .ok false

/-- The body of the `for` loop of `on_header` at position `p`. -/
def scanBody (d : Bytes) (p : Nat) (first : Bool) (b : Nat) (r : HttpRequest) :
    Except Fault Step := do
  let cp ← charAt d p
  if cp ≠ '\n' then return .next first b r
  let cm ← charAt d (p - 1)
  if cm ≠ '\r' then return .next first b r
  let c1 ← charAt d (p + 1)
  if c1 = ' ' then return .next first b r
  let isEnd ← endOfHeaders d p c1
  if isEnd then
    if p > b then
      let s ← substring d b (p - 1)
      return .done { parseHeader r s with headerSize_ := p + 3 }
    else
      return .done { r with headerSize_ := p + 3 }
  else if first then
    let s ← substring d b (p - 1)
    return .next false (p + 1) (parseMethod r s)
  else
    let s ← substring d b (p - 1)
    return .next first (p + 1) (parseHeader r s)

/-- The `for (size_t p = 3, n = headerData_.size(); p != n-2; ++p)` loop of `on_header`, run for
at most `fuel` iterations. -/
def scanLoop (d : Bytes) : Nat → Nat → Bool → Nat → HttpRequest → Except Fault HttpRequest
  | 0, _, _, _, _ => .error .fuel
  | fuel + 1, p, first, b, r =>
    if p = sizeMinus2 d.length then .ok r
    else
      match scanBody d p first b r with
      | .error e => .error e
      | .ok (.done r') => .ok r'
      | .ok (.next first' b' r') => scanLoop d fuel ((p + 1) % 2 ^ 64) first' b' r'

/-- The scan of `on_header`: `headerSize_ = xfer`, the stream buffer moved to `headerData_`,
then the loop.  The loop either stops or reads out of bounds within `size() + 1` iterations. -/
def scanHeaders (xfer : Nat) (r : HttpRequest) : Except Fault HttpRequest :=
  let r1 := { r with headerSize_ := xfer, headerData_ := r.header_, header_ := [] }
  scanLoop r1.headerData_ (r1.headerData_.length + 1) 3 true 0 r1

/-- `HttpRequest::on_header(err, xfer)`. -/
def on_header (err : error_code) (xfer : Nat) (r : HttpRequest) : Except Fault HttpRequest :=
  if err.value ≠ 0 then .ok (error r)
  else
    match scanHeaders xfer r with
    | .error e => .error e
    | .ok r2 =>
      if r2.version_.length = 0 ∨ r2.headers_.length = 0 ∨ r2.headerSize_ = 0 then
        .ok (error r2)
      else
        .ok { r2 with
              trace := r2.trace ++ [Effect.fire .onHeader r2.onHeader_]
              onHeader_ := [] }

/-! ## Body phase -/

/-- `HttpRequest::header(key)`: the value stored under the munged key, if any. -/
def header (r : HttpRequest) (key : Bytes) : Option Bytes :=
  mapFind r.headers_ (munge key)

/-- `HttpRequest::on_body(err, xfer)`. -/
def on_body (err : error_code) (xfer : Nat) (r : HttpRequest) : HttpRequest :=
  if err.value ≠ 0 ∧ (xfer > 0 ∧ (err.category ≠ .misc ∨ err.value ≠ asio_eof)) then
    error r
  else
    { r with
      trace := r.trace ++ [Effect.fire .onBody r.onBody_]
      onBody_ := []
      onError_ := [] }

/-- `std::vector<char>::max_size()` of the 64-bit implementation: the largest length a
`std::vector<char>` can have.  `resize` to a greater length throws `std::length_error`. -/
def vector_max_size : Nat := 2 ^ 63 - 1

/-- `v.resize(len)` on a `std::vector<char>`, for a length the vector can have
(`len <= vector_max_size`): cut, or filled up with zero bytes.  For a greater length the call
throws, so what is stated of `readBody` is stated for a length within the bound, or for one
that is at most the number of bytes of a buffer the request already holds. -/
def resize (v : Bytes) (len : Nat) : Bytes :=
  v.take len ++ List.replicate (len - v.length) '\x00'

/-- `std::copy(&src[from], &src[from] + count, &dst[0])`. -/
def copyToFront (src : Bytes) (sfrom count : Nat) (dst : Bytes) : Bytes :=
  (src.drop sfrom).take count ++ dst.drop count

/-- `HttpRequest::readBody()`.  The `std::runtime_error` for a closed socket is thrown inside
the `try` block, caught as `std::exception const &x` and thrown again by `throw x;`, which
throws a copy of static type `std::exception`: the exception that leaves `readBody` has the
`what()` of the base class, not the text of the `runtime_error`. -/
def readBody (r : HttpRequest) : Except Fault HttpRequest :=
  match header r "Content-Length".toList with
  | none => .error (.exception "Can't read body without content-length")
  | some cl =>
    match lexical_cast_size_t cl with
    | .error e => .error e
    | .ok len =>
      let r1 := { r with bodyData_ := resize r.bodyData_ len, bodyRead_ := 0 }
      let r2 :=
        if r1.headerSize_ < r1.headerData_.length ∧ len > 0 then
          let toCopy := r1.headerData_.length - r1.headerSize_
          let toCopy := if toCopy > len then len else toCopy
          { r1 with
            bodyData_ := copyToFront r1.headerData_ r1.headerSize_ toCopy r1.bodyData_
            bodyRead_ := toCopy }
        else r1
      let toRead := r2.bodyData_.length - r2.bodyRead_
      if toRead = 0 then .ok (on_body errc_success toRead r2)
      else if r2.socketOpen = false then
        .error (.exception "std::exception")
      else .ok { r2 with trace := r2.trace ++ [Effect.asyncRead r2.bodyRead_ toRead] }

/-- What asio does when the read queued by `readBody` completes: the bytes received are stored
in `bodyData_` from offset `bodyRead_` on, then `on_body` runs with their count. -/
def bodyReadComplete (err : error_code) (data : Bytes) (r : HttpRequest) : HttpRequest :=
  on_body err data.length
    { r with bodyData_ := r.bodyData_.take r.bodyRead_ ++ data ++
                            r.bodyData_.drop (r.bodyRead_ + data.length) }

/-! ## Reply phase -/

/-- `HttpRequest::appendReply(data, size)`. -/
def appendReply (r : HttpRequest) (data : Bytes) : HttpRequest :=
  { r with reply_ := r.reply_ ++ data }

/-- The string `headers` built by `doReply`. -/
def replyHeaders (code : Int) (ctype : Bytes) (size : Nat) (xheaders : Bytes) : Bytes :=
  "HTTP/1.1 ".toList ++ decimalInt code ++ " (that\x27s a status code)".toList ++ "\r\n".toList
    ++ "Content-Type: ".toList ++ ctype ++ "\r\n".toList
    ++ "Content-Length: ".toList ++ decimal size ++ "\r\n".toList
    ++ "Connection: close".toList ++ "\r\n".toList
    ++ xheaders
    ++ "\r\n".toList

/-- `HttpRequest::doReply(code, ctype, xheaders)`, which `sendReply` stands for. -/
def doReply (r : HttpRequest) (code : Int) (ctype xheaders : Bytes) : HttpRequest :=
  let r1 :=
    if code ≥ 400 then
      { r with hs_sInfo_ := { r.hs_sInfo_ with httpErrors := r.hs_sInfo_.httpErrors + 1 } }
    else r
  let headers := replyHeaders code ctype r1.reply_.length xheaders
  let r2 := { r1 with reply_ := headers ++ r1.reply_ }
  { r2 with
    trace := r2.trace ++ [Effect.asyncWrite r2.reply_]
    onHeader_ := []
    onBody_ := [] }

/-! ## `readHeaders` and the completion of the reply -/

/-- `HttpRequest::readHeaders()`. -/
def readHeaders (r : HttpRequest) : Except Fault HttpRequest :=
  if r.headerData_.length > 0 then .error (.exception "Can\x27t readHeaders() twice!")
  else .ok { r with trace := r.trace ++ [Effect.asyncReadUntil] }

/-- The cast `(int32_t)x`. -/
def int32_cast (x : Int) : Int := (x + 2 ^ 31) % 2 ^ 32 - 2 ^ 31

/-- `HttpRequest::on_reply(err, xfer)`; a failing `assert` is a fault. -/
def on_reply (err : error_code) (_xfer : Nat) (r : HttpRequest) : Except Fault HttpRequest :=
  let r1 :=
    if err.value ≠ 0 then
      { r with hs_sInfo_ := { r.hs_sInfo_ with numErrors := r.hs_sInfo_.numErrors + 1 } }
    else r
  if r1.hs_sInfo_.current > 0 then
    let r2 := { r1 with hs_sInfo_ := { r1.hs_sInfo_ with current := r1.hs_sInfo_.current - 1 } }
    .ok { r2 with
          trace := r2.trace ++
            [Effect.gauge (int32_cast r2.hs_sInfo_.current), Effect.socketClose]
          socketOpen := false
          onError_ := [] }
  else .error (.assertion "hs_->sInfo_.current > 0")

/-! ## The listener -/

/-- Observable actions of the listener, in the order in which the code performs them. -/
inductive ServerEffect where
  /-- `acceptor_.async_accept(request->socket(), handleAccept)` for the new request `req`. -/
  | asyncAccept (req : Nat)
  /-- The hook `onRequest_(req)`. -/
  | onRequest (req : Nat)
  /-- The call `req->readHeaders()`. -/
  | readHeaders (req : Nat)
  /-- `currentGauge.value(v)`. -/
  | gauge (v : Int)
  /-- `timer_.expires_from_now(boost::posix_time::seconds(n))`. -/
  | timerExpiresFromNow (seconds : Nat)
  /-- `timer_.async_wait(acceptOne)`. -/
  | timerAsyncWait
  deriving DecidableEq, Repr

/-- The members of `HttpServer` that the code at hand uses, with the requests it has made,
in order of creation (a request is named by its index), and the actions of the listener. -/
structure HttpServer where
  port_ : Int := 0
  sInfo_ : HttpServerInfo := {}
  requests : List HttpRequest := []
  log : List ServerEffect := []
  deriving DecidableEq, Repr

/-- `HttpServer::newHttpRequest()`: a request on this server, its socket not open yet. -/
def newHttpRequest (s : HttpServer) : HttpRequest :=
  { hs_sInfo_ := s.sInfo_, socketOpen := false }

/-- `HttpServer::acceptOne()`. -/
def acceptOne (s : HttpServer) : HttpServer :=
  { s with
    requests := s.requests ++ [newHttpRequest s]
    log := s.log ++ [ServerEffect.asyncAccept s.requests.length] }

/-- A member function of the request `req` run on the server it points to: `hs_->sInfo_` is
the `sInfo_` of the server, before and after. -/
def withRequest (s : HttpServer) (req : Nat) (f : HttpRequest → Except Fault HttpRequest) :
    Except Fault HttpServer :=
  match s.requests[req]? with
  | none => .error .outOfBounds
  | some r =>
    match f { r with hs_sInfo_ := s.sInfo_ } with
    | .error x => .error x
    | .ok r' => .ok { s with sInfo_ := r'.hs_sInfo_, requests := s.requests.set req r' }

/-- `HttpServer::handleAccept(e, req)`. -/
def handleAccept (e : error_code) (req : Nat) (s : HttpServer) : Except Fault HttpServer :=
  let s1 := { s with sInfo_ := { s.sInfo_ with numRequests := s.sInfo_.numRequests + 1 } }
  if e.value = 0 then
    let s2 := { s1 with sInfo_ := { s1.sInfo_ with current := s1.sInfo_.current + 1 } }
    let s3 := { s2 with
                log := s2.log ++ [ServerEffect.gauge (int32_cast s2.sInfo_.current),
                  ServerEffect.onRequest req, ServerEffect.readHeaders req] }
    match withRequest s3 req readHeaders with
    | .error x => .error x
    | .ok s4 => .ok (acceptOne s4)
  else
    let s2 := { s1 with sInfo_ := { s1.sInfo_ with numErrors := s1.sInfo_.numErrors + 1 } }
    .ok { s2 with
          log := s2.log ++ [ServerEffect.timerExpiresFromNow 1, ServerEffect.timerAsyncWait] }

/-- `HttpServer::HttpServer(port, svc, listen_addr)`, the socket calls succeeding. -/
def newHttpServer (port : Int) : HttpServer :=
  if port ≠ 0 then acceptOne { port_ := port, sInfo_ := { port := port } }
  else { port_ := port }

/-- What the event loop delivers to the listener and to its requests. -/
inductive Event where
  /-- The outstanding `async_accept` completes with `e`. -/
  | accepted (e : error_code)
  /-- The retry timer expires. -/
  | timerExpired
  /-- The request `req` takes the error outcome. -/
  | requestError (req : Nat)
  /-- The reply write of the request `req` completes. -/
  | replyWritten (req : Nat) (err : error_code) (xfer : Nat)

/-- The code run for an event; the outstanding accept is for the request made last. -/
def deliver : Event → HttpServer → Except Fault HttpServer
  | .accepted e, s => handleAccept e (s.requests.length - 1) s
  | .timerExpired, s => .ok (acceptOne s)
  | .requestError req, s => withRequest s req (fun r => .ok (error r))
  | .replyWritten req err xfer, s => withRequest s req (on_reply err xfer)

/-- The accepted connections whose reply write has not completed, after an event. -/
def liveAfter : Event → HttpServer → List Nat → List Nat
  | .accepted e, s, live => if e.value = 0 then (s.requests.length - 1) :: live else live
  | .timerExpired, _, live => live
  | .requestError _, _, live => live
  | .replyWritten req _ _, _, live => live.erase req

/-- A reply write completes only for an accepted connection, and once. -/
def admissible : Event → List Nat → Prop
  | .replyWritten req _ _, live => req ∈ live
  | _, _ => True

/-- The states of the listener reachable from its start on `port`, each with the accepted
connections whose reply write has not completed. -/
inductive Reachable (port : Int) : HttpServer → List Nat → Prop where
  | start : Reachable port (newHttpServer port) []
  | step (s s' : HttpServer) (live : List Nat) (ev : Event) :
      Reachable port s live → admissible ev live → deliver ev s = .ok s' →
      Reachable port s' (liveAfter ev s live)

/-- A completion handler or `error()` run on a request. -/
inductive RequestStep where
  | on_header (err : error_code) (xfer : Nat)
  | on_body (err : error_code) (xfer : Nat)
  | error
  | on_reply (err : error_code) (xfer : Nat)

/-- The code of one step. -/
def runStep : RequestStep → HttpRequest → Except Fault HttpRequest
  | .on_header err xfer, r => on_header err xfer r
  | .on_body err xfer, r => .ok (on_body err xfer r)
  | .error, r => .ok (error r)
  | .on_reply err xfer, r => on_reply err xfer r

/-- Steps run one after the other, up to the first fault. -/
def runSteps : List RequestStep → HttpRequest → Except Fault HttpRequest
  | [], r => .ok r
  | st :: rest, r =>
    match runStep st r with
    | .error x => .error x
    | .ok r' => runSteps rest r'

/-! ## Vocabulary of the statements -/

/-- CR LF CR LF stands at offsets `j .. j+3` of the buffer. -/
def termAt (d : Bytes) (j : Nat) : Prop :=
  charAt d j = .ok '\r' ∧ charAt d (j + 1) = .ok '\n' ∧ charAt d (j + 2) = .ok '\r' ∧
    charAt d (j + 3) = .ok '\n'

/-- The scan writes `method_`, `url_`, `version_`, `headers_` and `headerSize_` only. -/
def scanFrame (r r' : HttpRequest) : Prop :=
  r'.hs_sInfo_ = r.hs_sInfo_ ∧ r'.socketOpen = r.socketOpen ∧ r'.header_ = r.header_ ∧
  r'.headerData_ = r.headerData_ ∧ r'.bodyData_ = r.bodyData_ ∧ r'.bodyRead_ = r.bodyRead_ ∧
  r'.reply_ = r.reply_ ∧ r'.onHeader_ = r.onHeader_ ∧ r'.onBody_ = r.onBody_ ∧
  r'.onError_ = r.onError_ ∧ r'.trace = r.trace

/-- The header terminator CR LF CR LF. -/
def crlfcrlf : Bytes := ['\r', '\n', '\r', '\n']

/-- Lines, each followed by CR LF. -/
def unlines : List Bytes → Bytes
  | [] => []
  | l :: ls => l ++ '\r' :: '\n' :: unlines ls

/-- A physical line that the scan takes as one line: not empty, not beginning with a space
(which would continue the line before), without CR and LF inside. -/
def goodLine (l : Bytes) : Prop :=
  l ≠ [] ∧ l.head? ≠ some ' ' ∧ '\r' ∉ l ∧ '\n' ∉ l

instance (l : Bytes) : Decidable (goodLine l) := by
  unfold goodLine; infer_instance

/-- A token of the request line: not empty, without space, CR and LF. -/
def token (t : Bytes) : Prop :=
  t ≠ [] ∧ ' ' ∉ t ∧ '\r' ∉ t ∧ '\n' ∉ t

instance (t : Bytes) : Decidable (token t) := by
  unfold token; infer_instance

/-- Concatenation of a list of byte strings, in order. -/
def concatAll : List Bytes → Bytes
  | [] => []
  | x :: xs => x ++ concatAll xs

/-- A header line as it stands in the request: name, colon, space, value. -/
def headerLine (nv : Bytes × Bytes) : Bytes :=
  nv.1 ++ ':' :: ' ' :: nv.2

/-- The trimmed values of the lines whose normalized name is `key`, concatenated in order of
occurrence. -/
def headerValue (key : Bytes) (nvs : List (Bytes × Bytes)) : Bytes :=
  concatAll ((nvs.filter (fun nv => munge nv.1 = key)).map (fun nv => trim nv.2))

/-- A well-formed header line `name: value`: no colon in the name, no CR or LF in the line,
and no space at its start. -/
def goodHeader (nv : Bytes × Bytes) : Prop :=
  ':' ∉ nv.1 ∧ '\r' ∉ nv.1 ∧ '\n' ∉ nv.1 ∧ '\r' ∉ nv.2 ∧ '\n' ∉ nv.2 ∧ nv.1.head? ≠ some ' '

instance (nv : Bytes × Bytes) : Decidable (goodHeader nv) := by
  unfold goodHeader; infer_instance

/-- What `on_header` requires of the request after the scan to take it as well-formed. -/
def wellFormed (r2 : HttpRequest) : Prop :=
  r2.version_ ≠ [] ∧ r2.headers_ ≠ [] ∧ r2.headerSize_ ≠ 0

/-- The request once `readBody` has sized `bodyData_` to `L` and copied the over-read bytes:
`c = min L (headerData_.size() - headerSize_)` bytes from `headerSize_` on go to the front. -/
def afterCopy (r : HttpRequest) (L : Nat) : HttpRequest :=
  { r with
    bodyData_ :=
      (r.headerData_.drop r.headerSize_).take (min L (r.headerData_.length - r.headerSize_)) ++
        (resize r.bodyData_ L).drop (min L (r.headerData_.length - r.headerSize_))
    bodyRead_ := min L (r.headerData_.length - r.headerSize_) }

/-- No slot is connected to any of the three signals. -/
def disconnected (r : HttpRequest) : Prop :=
  r.onHeader_ = [] ∧ r.onBody_ = [] ∧ r.onError_ = []

/-- Effects in which no slot is called: every signal invocation finds no slot connected. -/
def callsNoSlot (es : List Effect) : Prop :=
  ∀ sig slots, Effect.fire sig slots ∈ es → slots = []

/-- The invariant of the listener: `current` is the number of accepted connections whose
reply write has not completed, and each of them is a request older than the one made last. -/
def countsLive (s : HttpServer) (live : List Nat) : Prop :=
  s.sInfo_.current = live.length ∧ ∀ req ∈ live, req + 1 < s.requests.length

/-- A header whose value is folded once: `name: v1` CR LF, then the continuation line that
begins with a space and holds `v2`. -/
def foldedHeader (name v1 v2 : Bytes) : Bytes :=
  name ++ ':' :: ' ' :: (v1 ++ '\r' :: '\n' :: ' ' :: v2)

/-- The loop runs over the text `l` and the CR that follows it without doing anything, and
stands then at the LF that ends `l`. -/
def scansAsLine (l : Bytes) : Prop :=
  ∀ (d pre suf : Bytes) (first : Bool) (b : Nat) (r : HttpRequest) (fuel : Nat),
    d.length < 2 ^ 64 → d = pre ++ (l ++ '\r' :: '\n' :: suf) → 1 ≤ suf.length →
    scanLoop d (fuel + (l.length + 1)) pre.length first b r =
      scanLoop d fuel (pre.length + l.length + 1) first b r

/-- A text that the scan takes as one header line when it stands between two line ends. -/
def logicalLine (l : Bytes) : Prop :=
  l ≠ [] ∧ l.head? ≠ some ' ' ∧ l.head? ≠ some '\r' ∧ scansAsLine l

/-! ## Reading the buffer -/

theorem charAt_of_lt (d : Bytes) (i : Nat) (h : i < d.length) :
    charAt d i = .ok (d.getD i '\x00') := by
  simp [charAt, h]

theorem charAt_append_cons (pre suf : Bytes) (c : Char) (i : Nat) (hi : i = pre.length) :
    charAt (pre ++ c :: suf) i = .ok c := by
  subst hi
  have h : pre.length < (pre ++ c :: suf).length := by simp
  rw [charAt, if_pos h, List.getD_eq_getElem?_getD, List.getElem?_append_right (le_refl _)]
  simp

theorem substring_mid (pre mid suf : Bytes) (b e : Nat) (hb : b = pre.length)
    (he : e = pre.length + mid.length) :
    substring (pre ++ mid ++ suf) b e = .ok mid := by
  subst hb he
  simp [substring]

theorem sizeMinus2_eq (n : Nat) (h2 : 2 ≤ n) (hn : n < 2 ^ 64) : sizeMinus2 n = n - 2 := by
  unfold sizeMinus2
  have : n + 2 ^ 64 - 2 = (n - 2) + 2 ^ 64 := by omega
  rw [this, Nat.add_mod_right]
  exact Nat.mod_eq_of_lt (by omega)

/-! ## One iteration of the scan -/

theorem scanBody_other (d : Bytes) (p b : Nat) (first : Bool) (r : HttpRequest) (c : Char)
    (hc : charAt d p = .ok c) (hne : c ≠ '\n') :
    scanBody d p first b r = .ok (.next first b r) := by
  simp [scanBody, hc, hne, bind, Except.bind, pure, Except.pure]

theorem charAt_ok_of_le (d : Bytes) (i : Nat) (h : i ≤ d.length) : ∃ c, charAt d i = .ok c := by
  unfold charAt
  by_cases h1 : i < d.length
  · exact ⟨_, if_pos h1⟩
  · have h2 : i = d.length := by omega
    exact ⟨_, by rw [if_neg h1, if_pos h2]⟩

theorem scanFrame_refl (r : HttpRequest) : scanFrame r r := by
  simp [scanFrame]

theorem scanFrame_trans {a b c : HttpRequest} (h1 : scanFrame a b) (h2 : scanFrame b c) :
    scanFrame a c := by
  simp only [scanFrame] at *
  obtain ⟨a1, a2, a3, a4, a5, a6, a7, a8, a9, a10, a11⟩ := h1
  obtain ⟨b1, b2, b3, b4, b5, b6, b7, b8, b9, b10, b11⟩ := h2
  exact ⟨b1.trans a1, b2.trans a2, b3.trans a3, b4.trans a4, b5.trans a5, b6.trans a6,
    b7.trans a7, b8.trans a8, b9.trans a9, b10.trans a10, b11.trans a11⟩

theorem scanFrame_parseHeader (r : HttpRequest) (s : Bytes) : scanFrame r (parseHeader r s) := by
  simp [scanFrame, parseHeader]

theorem scanFrame_parseMethod (r : HttpRequest) (s : Bytes) : scanFrame r (parseMethod r s) := by
  simp [scanFrame, parseMethod]

theorem scanBody_cases (d : Bytes) (p b : Nat) (first : Bool) (r : HttpRequest)
    (hp : 1 ≤ p) (hin : p + 2 ≤ d.length) (hb : b ≤ p)
    (hbp : b = p → charAt d (p - 1) = .ok '\n') :
    (∃ f' b' r', scanBody d p first b r = .ok (.next f' b' r') ∧ scanFrame r r' ∧
        r'.headerSize_ = r.headerSize_ ∧ b' ≤ p + 1 ∧
        (b' = p + 1 → charAt d p = .ok '\n') ∧ ¬ termAt d (p - 1)) ∨
    (∃ r', scanBody d p first b r = .ok (.done r') ∧ scanFrame r r' ∧
        r'.headerSize_ = p + 3 ∧ termAt d (p - 1)) := by
  obtain ⟨cp, hcp⟩ := charAt_ok_of_le d p (by omega)
  obtain ⟨cm, hcm⟩ := charAt_ok_of_le d (p - 1) (by omega)
  obtain ⟨c1, hc1⟩ := charAt_ok_of_le d (p + 1) (by omega)
  obtain ⟨c2, hc2⟩ := charAt_ok_of_le d (p + 2) (by omega)
  have hp1 : p - 1 + 1 = p := by omega
  have hp2 : p - 1 + 2 = p + 1 := by omega
  have hp3 : p - 1 + 3 = p + 2 := by omega
  have hnt : ∀ {P : Prop}, (cm = '\r' → cp = '\n' → c1 = '\r' → c2 = '\n' → P) →
      termAt d (p - 1) → P := by
    intro P hP ht
    obtain ⟨t0, t1, t2, t3⟩ := ht
    rw [hp1] at t1; rw [hp2] at t2; rw [hp3] at t3
    rw [hcm] at t0; rw [hcp] at t1; rw [hc1] at t2; rw [hc2] at t3
    exact hP (Except.ok.inj t0) (Except.ok.inj t1) (Except.ok.inj t2) (Except.ok.inj t3)
  by_cases h1 : cp = '\n'
  swap
  · left
    refine ⟨first, b, r, scanBody_other d p b first r cp hcp h1, scanFrame_refl r, rfl,
      by omega, ?_, ?_⟩
    · intro hb'; omega
    · exact hnt (fun _ h _ _ => h1 h)
  by_cases h2 : cm = '\r'
  swap
  · left
    refine ⟨first, b, r, ?_, scanFrame_refl r, rfl, by omega, ?_, ?_⟩
    · simp [scanBody, hcp, hcm, h1, h2, bind, Except.bind, pure, Except.pure]
    · intro hb'; omega
    · exact hnt (fun h _ _ _ => h2 h)
  have hblt : b < p := by
    rcases Nat.lt_or_ge b p with h | h
    · exact h
    · have hbe : b = p := by omega
      have := hbp hbe
      rw [hcm, h2] at this
      exact absurd (Except.ok.inj this) (by decide)
  have hsub : substring d b (p - 1) = .ok ((d.drop b).take (p - 1 - b)) := by
    unfold substring
    rw [if_pos]
    exact ⟨by omega, by omega⟩
  by_cases h3 : c1 = ' '
  · left
    refine ⟨first, b, r, ?_, scanFrame_refl r, rfl, by omega, ?_, ?_⟩
    · simp [scanBody, hcp, hcm, hc1, h1, h2, h3, bind, Except.bind, pure, Except.pure]
    · intro hb'; omega
    · exact hnt (fun _ _ h _ => by rw [h3] at h; exact absurd h (by decide))
  by_cases h4 : c1 = '\r' ∧ c2 = '\n'
  · right
    obtain ⟨h4a, h4b⟩ := h4
    refine ⟨{ parseHeader r ((d.drop b).take (p - 1 - b)) with headerSize_ := p + 3 }, ?_, ?_,
      rfl, ?_⟩
    · simp [scanBody, endOfHeaders, hcp, hcm, hc1, hc2, h1, h2, h4a, h4b, hblt, hsub, bind,
        Except.bind, pure, Except.pure]
    · simp [scanFrame, parseHeader]
    · refine ⟨?_, ?_, ?_, ?_⟩
      · rw [hcm, h2]
      · rw [hp1, hcp, h1]
      · rw [hp2, hc1, h4a]
      · rw [hp3, hc2, h4b]
  · left
    have hend : endOfHeaders d p c1 = .ok false := by
      unfold endOfHeaders
      by_cases h5 : c1 = '\r'
      · have h6 : c2 ≠ '\n' := fun h => h4 ⟨h5, h⟩
        simp [h5, hc2, h6]
      · simp [h5]
    cases first
    · refine ⟨false, p + 1, parseHeader r ((d.drop b).take (p - 1 - b)), ?_,
        scanFrame_parseHeader _ _, ?_, le_refl _, fun _ => by rw [hcp, h1], ?_⟩
      · rw [scanBody, hcp]
        simp only [bind, Except.bind, h1, hcm, h2, hc1, h3]
        simp [hend, hsub, bind, Except.bind, pure, Except.pure]
      · simp [parseHeader]
      · exact hnt (fun _ _ h5 h6 => h4 ⟨h5, h6⟩)
    · refine ⟨false, p + 1, parseMethod r ((d.drop b).take (p - 1 - b)), ?_,
        scanFrame_parseMethod _ _, ?_, le_refl _, fun _ => by rw [hcp, h1], ?_⟩
      · rw [scanBody, hcp]
        simp only [bind, Except.bind, h1, hcm, h2, hc1, h3]
        simp [hend, hsub, bind, Except.bind, pure, Except.pure]
      · simp [parseMethod]
      · exact hnt (fun _ _ h5 h6 => h4 ⟨h5, h6⟩)

/-! ## The scan loop on an arbitrary buffer -/

theorem scanLoop_spec (d : Bytes) (hn : d.length < 2 ^ 64) :
    ∀ (m p b : Nat) (first : Bool) (r : HttpRequest) (fuel : Nat),
      3 ≤ p → p + m + 2 = d.length → b ≤ p → (b = p → charAt d (p - 1) = .ok '\n') →
      m < fuel →
      ∃ r', scanLoop d fuel p first b r = .ok r' ∧ scanFrame r r' ∧
        ((r'.headerSize_ = r.headerSize_ ∧
            ∀ j, p ≤ j + 1 → j + 4 ≤ d.length → ¬ termAt d j) ∨
         (∃ q, p ≤ q ∧ q + 2 < d.length ∧ termAt d (q - 1) ∧ r'.headerSize_ = q + 3 ∧
            ∀ j, p ≤ j + 1 → j + 1 < q → ¬ termAt d j)) := by
  intro m
  induction m with
  | zero =>
    intro p b first r fuel hp hm _ _ hf
    obtain ⟨fuel', rfl⟩ : ∃ f, fuel = f + 1 := ⟨fuel - 1, by omega⟩
    have hs : p = sizeMinus2 d.length := by
      rw [sizeMinus2_eq _ (by omega) hn]; omega
    refine ⟨r, ?_, scanFrame_refl r, Or.inl ⟨rfl, ?_⟩⟩
    · rw [scanLoop, if_pos hs]
    · intro j h1 h2; omega
  | succ m ih =>
    intro p b first r fuel hp hm hb hbp hf
    obtain ⟨fuel', rfl⟩ : ∃ f, fuel = f + 1 := ⟨fuel - 1, by omega⟩
    have hs : p ≠ sizeMinus2 d.length := by
      rw [sizeMinus2_eq _ (by omega) hn]; omega
    have hmod : (p + 1) % 2 ^ 64 = p + 1 := Nat.mod_eq_of_lt (by omega)
    rcases scanBody_cases d p b first r (by omega) (by omega) hb hbp with
      ⟨f', b', r1, hbody, hfr, hsz, hb', hbp', hnt⟩ | ⟨r1, hbody, hfr, hsz, ht⟩
    · obtain ⟨r2, hloop, hfr2, hcase⟩ :=
        ih (p + 1) b' f' r1 fuel' (by omega) (by omega) hb' (by simpa using hbp') (by omega)
      refine ⟨r2, ?_, scanFrame_trans hfr hfr2, ?_⟩
      · rw [scanLoop, if_neg hs, hbody]
        show scanLoop d fuel' ((p + 1) % 2 ^ 64) f' b' r1 = _
        rw [hmod]
        exact hloop
      · rcases hcase with ⟨hsz2, hall⟩ | ⟨q, hq1, hq2, hq3, hq4, hall⟩
        · left
          refine ⟨by rw [hsz2, hsz], ?_⟩
          intro j h1 h2
          by_cases hj : j + 1 = p
          · have : j = p - 1 := by omega
            rw [this]; exact hnt
          · exact hall j (by omega) h2
        · right
          refine ⟨q, by omega, hq2, hq3, hq4, ?_⟩
          intro j h1 h2
          by_cases hj : j + 1 = p
          · have : j = p - 1 := by omega
            rw [this]; exact hnt
          · exact hall j (by omega) h2
    · refine ⟨r1, ?_, hfr, Or.inr ⟨p, le_refl _, by omega, ht, hsz, ?_⟩⟩
      · rw [scanLoop, if_neg hs, hbody]
      · intro j h1 h2; omega

/-- On a buffer of at least five bytes the scan of `on_header` runs to its end without a fault;
it touches the parsed fields only, and `headerSize_` ends as the offset just after the first
CR LF CR LF that starts at offset 2 or later, or as `xfer` when there is none. -/
theorem scanHeaders_spec (xfer : Nat) (r : HttpRequest) (h5 : 5 ≤ r.header_.length)
    (hn : r.header_.length < 2 ^ 64) :
    ∃ r', scanHeaders xfer r = .ok r' ∧
      r'.hs_sInfo_ = r.hs_sInfo_ ∧ r'.onHeader_ = r.onHeader_ ∧ r'.onBody_ = r.onBody_ ∧
      r'.onError_ = r.onError_ ∧ r'.trace = r.trace ∧ r'.headerData_ = r.header_ ∧
      ((r'.headerSize_ = xfer ∧ ∀ j, 2 ≤ j → ¬ termAt r.header_ j) ∨
       (∃ k, 2 ≤ k ∧ termAt r.header_ k ∧ r'.headerSize_ = k + 4 ∧
          ∀ j, 2 ≤ j → j < k → ¬ termAt r.header_ j)) := by
  obtain ⟨r', hloop, hfr, hcase⟩ :=
    scanLoop_spec r.header_ hn (r.header_.length - 5) 3 0 true
      { r with headerSize_ := xfer, headerData_ := r.header_, header_ := [] }
      (r.header_.length + 1) (le_refl _) (by omega) (by omega) (by omega) (by omega)
  obtain ⟨f1, _, _, f4, _, _, _, f8, f9, f10, f11⟩ := hfr
  refine ⟨r', hloop, f1, f8, f9, f10, f11, f4, ?_⟩
  rcases hcase with ⟨hsz, hall⟩ | ⟨q, hq1, hq2, hq3, hq4, hall⟩
  · left
    refine ⟨hsz, ?_⟩
    intro j hj ht
    by_cases hlen : j + 4 ≤ r.header_.length
    · exact hall j (by omega) hlen ht
    · obtain ⟨_, _, _, t3⟩ := ht
      unfold charAt at t3
      by_cases h1 : j + 3 = r.header_.length
      · rw [if_neg (by omega), if_pos h1] at t3
        exact absurd (Except.ok.inj t3) (by decide)
      · rw [if_neg (by omega), if_neg h1] at t3
        cases t3
  · right
    refine ⟨q - 1, by omega, hq3, by rw [hq4]; omega, ?_⟩
    intro j hj1 hj2
    exact hall j (by omega) (by omega)

/-! ## Where the terminator stands -/

theorem drop_of_charAt (d : Bytes) (i : Nat) (c : Char) (h : charAt d i = .ok c)
    (hc : c ≠ '\x00') : d.drop i = c :: d.drop (i + 1) := by
  unfold charAt at h
  by_cases h1 : i < d.length
  · rw [if_pos h1] at h
    have h2 : d.getD i '\x00' = c := Except.ok.inj h
    rw [List.getD_eq_getElem?_getD, List.getElem?_eq_getElem h1] at h2
    simp only [Option.getD_some] at h2
    rw [← h2]
    exact List.drop_eq_getElem_cons h1
  · rw [if_neg h1] at h
    by_cases h2 : i = d.length
    · rw [if_pos h2] at h
      exact absurd (Except.ok.inj h).symm hc
    · rw [if_neg h2] at h
      cases h

theorem termAt_of_append (pre post : Bytes) :
    termAt (pre ++ crlfcrlf ++ post) pre.length := by
  refine ⟨?_, ?_, ?_, ?_⟩
  · exact charAt_append_cons pre _ _ _ rfl |> fun h => by simpa [crlfcrlf] using h
  · have := charAt_append_cons (pre ++ ['\r']) ('\r' :: '\n' :: post) '\n' (pre.length + 1)
      (by simp)
    simpa [crlfcrlf] using this
  · have := charAt_append_cons (pre ++ ['\r', '\n']) ('\n' :: post) '\r' (pre.length + 2)
      (by simp)
    simpa [crlfcrlf] using this
  · have := charAt_append_cons (pre ++ ['\r', '\n', '\r']) post '\n' (pre.length + 3)
      (by simp)
    simpa [crlfcrlf] using this

theorem append_of_termAt (d : Bytes) (j : Nat) (h : termAt d j) :
    ∃ pre post, d = pre ++ crlfcrlf ++ post ∧ pre.length = j := by
  obtain ⟨h0, h1, h2, h3⟩ := h
  have e0 := drop_of_charAt d j _ h0 (by decide)
  have e1 := drop_of_charAt d (j + 1) _ h1 (by decide)
  have e2 := drop_of_charAt d (j + 2) _ h2 (by decide)
  have e3 := drop_of_charAt d (j + 3) _ h3 (by decide)
  have hlt : j < d.length := by
    by_contra hge
    rw [List.drop_eq_nil_of_le (by omega)] at e0
    cases e0
  refine ⟨d.take j, d.drop (j + 4), ?_, ?_⟩
  · have : d.drop j = crlfcrlf ++ d.drop (j + 4) := by
      rw [e0, e1, e2, e3]; rfl
    rw [List.append_assoc, ← this, List.take_append_drop]
  · simp; omega

theorem take4_of_termAt (d : Bytes) (j : Nat) (h : termAt d j) :
    (d.drop j).take 4 = crlfcrlf := by
  obtain ⟨pre, post, hd, hj⟩ := append_of_termAt d j h
  subst hj
  rw [hd, List.append_assoc, List.drop_left]
  simp [crlfcrlf]

theorem on_header_of_scan (err : error_code) (xfer : Nat) (r r2 : HttpRequest)
    (herr : err.value = 0) (h : scanHeaders xfer r = .ok r2) :
    on_header err xfer r = .ok
      (if r2.version_.length = 0 ∨ r2.headers_.length = 0 ∨ r2.headerSize_ = 0 then error r2
       else { r2 with
              trace := r2.trace ++ [Effect.fire .onHeader r2.onHeader_]
              onHeader_ := [] }) := by
  unfold on_header
  rw [if_neg (by simp [herr]), h]
  by_cases hbad : r2.version_.length = 0 ∨ r2.headers_.length = 0 ∨ r2.headerSize_ = 0
  · simp only [if_pos hbad]
  · simp only [if_neg hbad]

/-- C3: when the first CR LF CR LF of the accumulated buffer starts at offset `k >= 2`
(`k` being the length of `pre`), the scan of `on_header` ends with `headerSize_ = k + 4`, the
offset just after that terminator, whatever `xfer` was and whatever bytes `post` follow it; the
rest of `on_header` leaves that value in place. -/
theorem on_header_headerSize_after_first_terminator (err : error_code) (xfer : Nat)
    (r : HttpRequest) (pre post : Bytes) (herr : err.value = 0)
    (hbuf : r.header_ = pre ++ crlfcrlf ++ post)
    (hfirst : ∀ j, j < pre.length → (r.header_.drop j).take 4 ≠ crlfcrlf)
    (hk : 2 ≤ pre.length) (hn : r.header_.length < 2 ^ 64) :
    ∃ r2 r3, scanHeaders xfer r = .ok r2 ∧ r2.headerSize_ = pre.length + 4 ∧
      on_header err xfer r = .ok r3 ∧ r3.headerSize_ = pre.length + 4 := by
  have hlen : 5 ≤ r.header_.length := by
    rw [hbuf]; simp [crlfcrlf]; omega
  obtain ⟨r2, hscan, _, _, _, _, _, _, hcase⟩ := scanHeaders_spec xfer r hlen hn
  have hterm : termAt r.header_ pre.length := by
    rw [hbuf]; exact termAt_of_append pre post
  have hsz : r2.headerSize_ = pre.length + 4 := by
    rcases hcase with ⟨_, hall⟩ | ⟨k, hk2, hkt, hksz, hall⟩
    · exact absurd hterm (hall _ hk)
    · have h1 : ¬ k < pre.length := fun h => hfirst k h (take4_of_termAt _ _ hkt)
      have h2 : ¬ pre.length < k := fun h => hall _ hk h hterm
      have : k = pre.length := by omega
      rw [hksz, this]
  refine ⟨r2, _, hscan, hsz, on_header_of_scan err xfer r r2 herr hscan, ?_⟩
  by_cases hbad : r2.version_.length = 0 ∨ r2.headers_.length = 0 ∨ r2.headerSize_ = 0
  · rw [if_pos hbad]; exact hsz
  · rw [if_neg hbad]; exact hsz

theorem on_header_headerSize_after_first_terminator_witness :
    ∃ r2 r3,
      scanHeaders 26 { header_ := "GET / HTTP/1.1\r\nA: b\r\n\r\nhello\r\n\r\n".toList } = .ok r2 ∧
      r2.headerSize_ = "GET / HTTP/1.1\r\nA: b".toList.length + 4 ∧
      on_header errc_success 26
        { header_ := "GET / HTTP/1.1\r\nA: b\r\n\r\nhello\r\n\r\n".toList } = .ok r3 ∧
      r3.headerSize_ = "GET / HTTP/1.1\r\nA: b".toList.length + 4 :=
  on_header_headerSize_after_first_terminator errc_success 26
    { header_ := "GET / HTTP/1.1\r\nA: b\r\n\r\nhello\r\n\r\n".toList }
    "GET / HTTP/1.1\r\nA: b".toList "hello\r\n\r\n".toList rfl rfl (by decide) (by decide)
    (by decide)

/-! ## The scan loop on a buffer made of lines -/

theorem scanLoop_skip (d : Bytes) (hn : d.length < 2 ^ 64) (first : Bool) (b : Nat)
    (r : HttpRequest) (suf : Bytes) (hsuf : 2 ≤ suf.length) :
    ∀ (seg pre : Bytes) (fuel p : Nat), d = pre ++ (seg ++ suf) → p = pre.length →
      '\n' ∉ seg →
      scanLoop d (fuel + seg.length) p first b r = scanLoop d fuel (p + seg.length) first b r := by
  intro seg
  induction seg with
  | nil => intro pre fuel p _ _ _; simp
  | cons c seg ih =>
    intro pre fuel p hd hp hnl
    have hlen : d.length = pre.length + (seg.length + 1) + suf.length := by
      rw [hd]; simp; omega
    have hs : p ≠ sizeMinus2 d.length := by
      rw [sizeMinus2_eq _ (by omega) hn]; omega
    have hc : charAt d p = .ok c := by
      rw [hd]; exact charAt_append_cons pre (seg ++ suf) c p hp
    have hcn : c ≠ '\n' := fun h => hnl (by simp [h])
    have hmod : (p + 1) % 2 ^ 64 = p + 1 := Nat.mod_eq_of_lt (by omega)
    have hstep : scanLoop d (fuel + seg.length + 1) p first b r =
        scanLoop d (fuel + seg.length) (p + 1) first b r := by
      rw [scanLoop, if_neg hs, scanBody_other d p b first r c hc hcn]
      show scanLoop d (fuel + seg.length) ((p + 1) % 2 ^ 64) first b r = _
      rw [hmod]
    have hih := ih (pre ++ [c]) fuel (p + 1) (by rw [hd]; simp) (by simp [hp])
      (fun h => hnl (List.mem_cons_of_mem _ h))
    rw [List.length_cons, ← Nat.add_assoc, hstep, hih]
    congr 1
    omega

theorem scanLoop_boundary (d : Bytes) (hn : d.length < 2 ^ 64) (first : Bool)
    (r : HttpRequest) (pre line suf : Bytes) (c1 : Char) (fuel p b : Nat)
    (hd : d = pre ++ (line ++ '\r' :: '\n' :: c1 :: suf)) (hb : b = pre.length)
    (hp : p = pre.length + line.length + 1) (hsuf : 1 ≤ suf.length)
    (hsp : c1 ≠ ' ') (hcr : c1 ≠ '\r') :
    scanLoop d (fuel + 1) p first b r =
      scanLoop d fuel (p + 1) false (p + 1)
        (if first then parseMethod r line else parseHeader r line) := by
  have hlen : d.length = pre.length + line.length + 3 + suf.length := by
    rw [hd]; simp; omega
  have hs : p ≠ sizeMinus2 d.length := by
    rw [sizeMinus2_eq _ (by omega) hn]; omega
  have hmod : (p + 1) % 2 ^ 64 = p + 1 := Nat.mod_eq_of_lt (by omega)
  have hcp : charAt d p = .ok '\n' := by
    have := charAt_append_cons (pre ++ line ++ ['\r']) (c1 :: suf) '\n' p (by simp [hp]; omega)
    rw [hd]; simpa using this
  have hcm : charAt d (p - 1) = .ok '\r' := by
    have := charAt_append_cons (pre ++ line) ('\n' :: c1 :: suf) '\r' (p - 1) (by simp [hp])
    rw [hd]; simpa using this
  have hc1 : charAt d (p + 1) = .ok c1 := by
    have := charAt_append_cons (pre ++ line ++ ['\r', '\n']) suf c1 (p + 1) (by simp [hp]; omega)
    rw [hd]; simpa using this
  have hsub : substring d b (p - 1) = .ok line := by
    have := substring_mid pre line ('\r' :: '\n' :: c1 :: suf) b (p - 1) hb (by omega)
    rw [hd]; simpa using this
  have hend : endOfHeaders d p c1 = .ok false := by
    simp [endOfHeaders, hcr]
  have hbody : scanBody d p first b r =
      .ok (.next false (p + 1) (if first then parseMethod r line else parseHeader r line)) := by
    rw [scanBody, hcp]
    simp only [bind, Except.bind, hcm, hc1, hend]
    cases first <;> simp [hsp, hsub, pure, Except.pure]
  rw [scanLoop, if_neg hs, hbody]
  show scanLoop d fuel ((p + 1) % 2 ^ 64) false (p + 1) _ = _
  rw [hmod]

theorem scanLoop_last (d : Bytes) (hn : d.length < 2 ^ 64) (first : Bool)
    (r : HttpRequest) (pre line suf : Bytes) (fuel p b : Nat)
    (hd : d = pre ++ (line ++ '\r' :: '\n' :: '\r' :: '\n' :: suf)) (hb : b = pre.length)
    (hp : p = pre.length + line.length + 1) :
    scanLoop d (fuel + 1) p first b r =
      .ok { parseHeader r line with headerSize_ := p + 3 } := by
  have hlen : d.length = pre.length + line.length + 4 + suf.length := by
    rw [hd]; simp; omega
  have hs : p ≠ sizeMinus2 d.length := by
    rw [sizeMinus2_eq _ (by omega) hn]; omega
  have hcp : charAt d p = .ok '\n' := by
    have := charAt_append_cons (pre ++ line ++ ['\r']) ('\r' :: '\n' :: suf) '\n' p
      (by simp [hp]; omega)
    rw [hd]; simpa using this
  have hcm : charAt d (p - 1) = .ok '\r' := by
    have := charAt_append_cons (pre ++ line) ('\n' :: '\r' :: '\n' :: suf) '\r' (p - 1)
      (by simp [hp])
    rw [hd]; simpa using this
  have hc1 : charAt d (p + 1) = .ok '\r' := by
    have := charAt_append_cons (pre ++ line ++ ['\r', '\n']) ('\n' :: suf) '\r' (p + 1)
      (by simp [hp]; omega)
    rw [hd]; simpa using this
  have hc2 : charAt d (p + 2) = .ok '\n' := by
    have := charAt_append_cons (pre ++ line ++ ['\r', '\n', '\r']) suf '\n' (p + 2)
      (by simp [hp]; omega)
    rw [hd]; simpa using this
  have hsub : substring d b (p - 1) = .ok line := by
    have := substring_mid pre line ('\r' :: '\n' :: '\r' :: '\n' :: suf) b (p - 1) hb
      (by omega)
    rw [hd]; simpa using this
  have hend : endOfHeaders d p '\r' = .ok true := by
    simp [endOfHeaders, hc2]
  have hbp : b < p := by omega
  have hbody : scanBody d p first b r =
      .ok (.done { parseHeader r line with headerSize_ := p + 3 }) := by
    rw [scanBody, hcp]
    simp only [bind, Except.bind, hcm, hc1, hend]
    simp [hbp, hsub, pure, Except.pure]
  rw [scanLoop, if_neg hs, hbody]

/-- From anywhere inside a line (or at its start) the loop runs on to the LF that ends it
without doing anything. -/
theorem scanLoop_line (d : Bytes) (hn : d.length < 2 ^ 64) (first : Bool) (r : HttpRequest)
    (pre line suf : Bytes) (fuel p b : Nat)
    (hd : d = pre ++ (line ++ '\r' :: '\n' :: suf)) (hsuf : 1 ≤ suf.length)
    (hp1 : pre.length ≤ p) (hp2 : p ≤ pre.length + line.length + 1)
    (hnl : '\n' ∉ line) :
    scanLoop d (fuel + (pre.length + line.length + 1 - p)) p first b r =
      scanLoop d fuel (pre.length + line.length + 1) first b r := by
  have hseg : '\n' ∉ (line ++ ['\r']).drop (p - pre.length) := by
    intro h
    have := List.mem_of_mem_drop h
    simp at this
    exact hnl this
  have hsplit : d = (pre ++ (line ++ ['\r']).take (p - pre.length)) ++
      ((line ++ ['\r']).drop (p - pre.length) ++ '\n' :: suf) := by
    rw [hd, List.append_assoc, ← List.append_assoc (List.take _ _), List.take_append_drop]
    simp
  have hlen1 : ((line ++ ['\r']).drop (p - pre.length)).length =
      pre.length + line.length + 1 - p := by
    simp; omega
  have hlen2 : (pre ++ (line ++ ['\r']).take (p - pre.length)).length = p := by
    simp; omega
  have := scanLoop_skip d hn first b r ('\n' :: suf) (by simp; omega)
    ((line ++ ['\r']).drop (p - pre.length)) _ fuel p hsplit hlen2.symm hseg
  rw [hlen1] at this
  rw [this]
  congr 1
  omega

/-- The scan from the start of the first of a non-empty list of header lines that ends the
header block: every line goes through `parseHeader`, in order, and `headerSize_` is set to the
offset after the blank line. -/
theorem scanLoop_lines (d : Bytes) (hn : d.length < 2 ^ 64) (rest : Bytes) :
    ∀ (lines : List Bytes) (pre : Bytes) (r : HttpRequest) (fuel : Nat),
      lines ≠ [] → (∀ l ∈ lines, goodLine l) →
      d = pre ++ (unlines lines ++ '\r' :: '\n' :: rest) →
      scanLoop d (fuel + (unlines lines).length) pre.length false pre.length r =
        .ok { lines.foldl parseHeader r with
              headerSize_ := pre.length + (unlines lines).length + 2 } := by
  intro lines
  induction lines with
  | nil => intro pre r fuel h; exact absurd rfl h
  | cons l ls ih =>
    intro pre r fuel _ hgood hd
    have hl := hgood l (List.mem_cons_self _ _)
    cases ls with
    | nil =>
      have hd' : d = pre ++ (l ++ '\r' :: '\n' :: '\r' :: '\n' :: rest) := by
        rw [hd]; simp [unlines]
      have h1 := scanLoop_line d hn false r pre l ('\r' :: '\n' :: rest) (fuel + 1)
        pre.length pre.length hd' (by simp) (le_refl _) (by omega) hl.2.2.2
      have h2 := scanLoop_last d hn false r pre l rest fuel (pre.length + l.length + 1)
        pre.length hd' rfl rfl
      have hf : fuel + (unlines [l]).length =
          fuel + 1 + (pre.length + l.length + 1 - pre.length) := by
        simp [unlines]; omega
      rw [hf, h1, h2]
      simp [unlines]
      omega
    | cons l2 ls =>
      have hl2 := hgood l2 (by simp)
      obtain ⟨c1, l2', rfl⟩ : ∃ c1 l2', l2 = c1 :: l2' := by
        cases l2 with
        | nil => exact absurd rfl hl2.1
        | cons c t => exact ⟨c, t, rfl⟩
      have hsp : c1 ≠ ' ' := by
        intro h; apply hl2.2.1; simp [h]
      have hcr : c1 ≠ '\r' := by
        intro h; apply hl2.2.2.1; simp [h]
      have hd' : d = pre ++ (l ++ '\r' :: '\n' :: c1 ::
          (l2' ++ '\r' :: '\n' :: (unlines ls ++ '\r' :: '\n' :: rest))) := by
        rw [hd]; simp [unlines]
      have h1 := scanLoop_line d hn false r pre l
        (c1 :: (l2' ++ '\r' :: '\n' :: (unlines ls ++ '\r' :: '\n' :: rest)))
        (fuel + (unlines ((c1 :: l2') :: ls)).length + 1)
        pre.length pre.length hd' (by simp) (le_refl _) (by omega) hl.2.2.2
      have h2 := scanLoop_boundary d hn false r pre l
        (l2' ++ '\r' :: '\n' :: (unlines ls ++ '\r' :: '\n' :: rest)) c1
        (fuel + (unlines ((c1 :: l2') :: ls)).length) (pre.length + l.length + 1)
        pre.length hd' rfl rfl (by simp; omega) hsp hcr
      have h3 := ih (pre ++ (l ++ ['\r', '\n'])) (parseHeader r l) fuel (by simp)
        (fun x hx => hgood x (List.mem_cons_of_mem _ hx)) (by rw [hd]; simp [unlines])
      have hf : fuel + (unlines (l :: (c1 :: l2') :: ls)).length =
          fuel + (unlines ((c1 :: l2') :: ls)).length + 1 +
            (pre.length + l.length + 1 - pre.length) := by
        simp [unlines]; omega
      have hpl : (pre ++ (l ++ ['\r', '\n'])).length = pre.length + l.length + 1 + 1 := by
        simp; omega
      rw [hpl] at h3
      rw [hf, h1, h2]
      simp only [Bool.false_eq_true, if_false]
      rw [h3]
      simp [unlines]
      omega

/-- The buffer made of a request line, header lines and the blank line is scanned into
`parseMethod` of the request line followed by `parseHeader` of every header line in order, and
`headerSize_` ends as the offset just after the blank line. -/
theorem scanHeaders_lines (xfer : Nat) (r : HttpRequest) (rl : Bytes) (lines : List Bytes)
    (rest : Bytes)
    (hbuf : r.header_ = rl ++ '\r' :: '\n' :: (unlines lines ++ '\r' :: '\n' :: rest))
    (hrl : 2 ≤ rl.length) (hrlnl : '\n' ∉ rl) (hne : lines ≠ [])
    (hgood : ∀ l ∈ lines, goodLine l) (hn : r.header_.length < 2 ^ 64) :
    scanHeaders xfer r = .ok
      { lines.foldl parseHeader
          (parseMethod { r with headerSize_ := xfer, headerData_ := r.header_, header_ := [] } rl)
        with headerSize_ := rl.length + 2 + (unlines lines).length + 2 } := by
  obtain ⟨l1, ls, rfl⟩ : ∃ l1 ls, lines = l1 :: ls := by
    cases lines with
    | nil => exact absurd rfl hne
    | cons a t => exact ⟨a, t, rfl⟩
  have hl1 := hgood l1 (List.mem_cons_self _ _)
  obtain ⟨c1, l1', rfl⟩ : ∃ c1 l1', l1 = c1 :: l1' := by
    cases l1 with
    | nil => exact absurd rfl hl1.1
    | cons c t => exact ⟨c, t, rfl⟩
  have hsp : c1 ≠ ' ' := by
    intro h; apply hl1.2.1; simp [h]
  have hcr : c1 ≠ '\r' := by
    intro h; apply hl1.2.2.1; simp [h]
  generalize hr1 : ({ r with headerSize_ := xfer, headerData_ := r.header_, header_ := [] } :
    HttpRequest) = r1
  have hd : r.header_ = [] ++ (rl ++ '\r' :: '\n' :: c1 ::
      (l1' ++ '\r' :: '\n' :: (unlines ls ++ '\r' :: '\n' :: rest))) := by
    rw [hbuf]; simp [unlines]
  have hlen : r.header_.length =
      rl.length + 2 + (unlines ((c1 :: l1') :: ls)).length + 2 + rest.length := by
    rw [hbuf]; simp; omega
  have h1 := scanLoop_line r.header_ hn true r1 [] rl
    (c1 :: (l1' ++ '\r' :: '\n' :: (unlines ls ++ '\r' :: '\n' :: rest)))
    (6 + rest.length + (unlines ((c1 :: l1') :: ls)).length + 1) 3 0 hd (by simp)
    (by simp) (by simp; omega) hrlnl
  have h2 := scanLoop_boundary r.header_ hn true r1 [] rl
    (l1' ++ '\r' :: '\n' :: (unlines ls ++ '\r' :: '\n' :: rest)) c1
    (6 + rest.length + (unlines ((c1 :: l1') :: ls)).length) (rl.length + 1) 0 hd rfl
    (by simp) (by simp; omega) hsp hcr
  have h3 := scanLoop_lines r.header_ hn rest ((c1 :: l1') :: ls) (rl ++ ['\r', '\n'])
    (parseMethod r1 rl) (6 + rest.length) hne hgood (by rw [hbuf]; simp)
  have hpl : (rl ++ ['\r', '\n']).length = rl.length + 1 + 1 := by simp
  rw [hpl] at h3
  simp only [List.length_nil, Nat.zero_add] at h1 h2
  have hf : r.header_.length + 1 =
      6 + rest.length + (unlines ((c1 :: l1') :: ls)).length + 1 + (rl.length + 1 - 3) := by
    omega
  unfold scanHeaders
  simp only [hr1]
  rw [hf, h1, h2]
  simp only [if_true]
  rw [h3]

/-! ## The string helpers -/

theorem split_append_cons (a b : Bytes) (ch : Char) (h : ch ∉ a) :
    split (a ++ ch :: b) ch = (a, b) := by
  induction a with
  | nil => simp [split]
  | cons c a ih =>
    have hc : c ≠ ch := fun e => h (by simp [e])
    have ha : ch ∉ a := fun e => h (List.mem_cons_of_mem _ e)
    have := ih ha
    simp only [split, Prod.mk.injEq] at this ⊢
    simp [hc, this.1, this.2]

theorem dropWhile_eq_self_of_head (p : Char → Bool) (s : Bytes)
    (h : ∀ c, s.head? = some c → p c = false) : s.dropWhile p = s := by
  cases s with
  | nil => rfl
  | cons c t => simp [List.dropWhile, h c rfl]

theorem trim_eq_self (s : Bytes) (h1 : ∀ c, s.head? = some c → isspace c = false)
    (h2 : ∀ c, s.getLast? = some c → isspace c = false) : trim s = s := by
  unfold trim
  rw [dropWhile_eq_self_of_head isspace s h1,
    dropWhile_eq_self_of_head isspace s.reverse (by simpa using h2), List.reverse_reverse]

theorem trim_space_cons (s : Bytes) : trim (' ' :: s) = trim s := by
  simp [trim, List.dropWhile, isspace]

theorem foldl_parseHeader_fields (lines : List Bytes) (r : HttpRequest) :
    (lines.foldl parseHeader r).method_ = r.method_ ∧
    (lines.foldl parseHeader r).url_ = r.url_ ∧
    (lines.foldl parseHeader r).version_ = r.version_ := by
  induction lines generalizing r with
  | nil => exact ⟨rfl, rfl, rfl⟩
  | cons l ls ih =>
    obtain ⟨h1, h2, h3⟩ := ih (parseHeader r l)
    exact ⟨h1, h2, h3⟩

theorem parseMethod_tokens (r : HttpRequest) (m u v : Bytes) (hm : ' ' ∉ m) (hu : ' ' ∉ u)
    (hu0 : u ≠ []) (hv0 : v ≠ [])
    (hut : ∀ c, u.head? = some c → isspace c = false)
    (hvt : ∀ c, v.getLast? = some c → isspace c = false) :
    (parseMethod r (m ++ ' ' :: (u ++ ' ' :: v))).method_ = m ∧
    (parseMethod r (m ++ ' ' :: (u ++ ' ' :: v))).url_ = u ∧
    (parseMethod r (m ++ ' ' :: (u ++ ' ' :: v))).version_ = v := by
  have htrim : trim (u ++ ' ' :: v) = u ++ ' ' :: v := by
    apply trim_eq_self
    · intro c hc
      cases u with
      | nil => exact absurd rfl hu0
      | cons a t => exact hut c (by simpa using hc)
    · intro c hc
      apply hvt c
      rw [List.getLast?_append_of_ne_nil u (by simp : ' ' :: v ≠ [])] at hc
      cases v with
      | nil => exact absurd rfl hv0
      | cons a t => rw [List.getLast?_cons_cons] at hc; exact hc
  simp only [parseMethod, split_append_cons m _ ' ' hm, htrim, split_append_cons u v ' ' hu]
  exact ⟨trivial, trivial, trivial⟩

/-- C1 (amended): for tokens `m`, `u`, `v` that are non-empty and contain no space, CR or LF,
where moreover `u` does not begin and `v` does not end with a whitespace character (tab,
vertical tab, form feed), `on_header` without transport error on the buffer `m u v` CR LF, at
least one header line, the blank line (and whatever follows) sets `method_ = m`, `url_ = u`
and `version_ = v`. -/
theorem on_header_request_line (err : error_code) (xfer : Nat) (r : HttpRequest)
    (m u v : Bytes) (lines : List Bytes) (rest : Bytes) (herr : err.value = 0)
    (hbuf : r.header_ =
      (m ++ ' ' :: (u ++ ' ' :: v)) ++ '\r' :: '\n' :: (unlines lines ++ '\r' :: '\n' :: rest))
    (hm : token m) (hu : token u) (hv : token v)
    (hut : ∀ c, u.head? = some c → isspace c = false)
    (hvt : ∀ c, v.getLast? = some c → isspace c = false)
    (hne : lines ≠ []) (hgood : ∀ l ∈ lines, goodLine l) (hn : r.header_.length < 2 ^ 64) :
    ∃ r', on_header err xfer r = .ok r' ∧ r'.method_ = m ∧ r'.url_ = u ∧ r'.version_ = v := by
  have hlen : 2 ≤ (m ++ ' ' :: (u ++ ' ' :: v)).length := by
    simp; omega
  have hnl : '\n' ∉ m ++ ' ' :: (u ++ ' ' :: v) := by
    simp [hm.2.2.2, hu.2.2.2, hv.2.2.2]
  have hscan := scanHeaders_lines xfer r _ lines rest hbuf hlen hnl hne hgood hn
  have hon := on_header_of_scan err xfer r _ herr hscan
  obtain ⟨p1, p2, p3⟩ := parseMethod_tokens
    { r with headerSize_ := xfer, headerData_ := r.header_, header_ := [] } m u v
    hm.2.1 hu.2.1 hu.1 hv.1 hut hvt
  obtain ⟨f1, f2, f3⟩ := foldl_parseHeader_fields lines
    (parseMethod { r with headerSize_ := xfer, headerData_ := r.header_, header_ := [] }
      (m ++ ' ' :: (u ++ ' ' :: v)))
  refine ⟨_, hon, ?_⟩
  split
  · exact ⟨f1.trans p1, f2.trans p2, f3.trans p3⟩
  · exact ⟨f1.trans p1, f2.trans p2, f3.trans p3⟩

theorem on_header_request_line_witness :
    ∃ r', on_header errc_success 30 { header_ := "GET /foo HTTP/1.1\r\nHost: x\r\n\r\n".toList }
        = .ok r' ∧
      r'.method_ = "GET".toList ∧ r'.url_ = "/foo".toList ∧ r'.version_ = "HTTP/1.1".toList :=
  on_header_request_line errc_success 30
    { header_ := "GET /foo HTTP/1.1\r\nHost: x\r\n\r\n".toList }
    "GET".toList "/foo".toList "HTTP/1.1".toList ["Host: x".toList] [] rfl rfl
    (by decide) (by decide) (by decide) (by decide) (by decide) (by decide) (by decide)
    (by decide)

/-- C1 fails as stated: the version `HTTP/1.1` followed by a tab contains no space, CR or LF,
yet `on_header` stores `HTTP/1.1` without the tab (the remainder of the request line is
trimmed before it is split). -/
theorem on_header_request_line_counterexample :
    token "GET".toList ∧ token "/foo".toList ∧ token "HTTP/1.1\t".toList ∧
    goodLine "Host: x".toList ∧
    ∃ r', on_header errc_success 31
        { header_ := "GET".toList ++ ' ' :: ("/foo".toList ++ ' ' :: "HTTP/1.1\t".toList) ++
            '\r' :: '\n' :: (unlines ["Host: x".toList] ++ ['\r', '\n']) } = .ok r' ∧
      r'.method_ = "GET".toList ∧ r'.url_ = "/foo".toList ∧
      r'.version_ = "HTTP/1.1".toList ∧ r'.version_ ≠ "HTTP/1.1\t".toList :=
  ⟨by decide, by decide, by decide, by decide, _, rfl, by decide, by decide, by decide,
    by decide⟩

/-! ## The header map -/

theorem mapFind_mapAppend (h : List (Bytes × Bytes)) (k v key : Bytes) :
    mapFind (mapAppend h k v) key =
      if k = key then some ((mapFind h key).getD [] ++ v) else mapFind h key := by
  induction h with
  | nil =>
    by_cases hk : k = key <;> simp [mapAppend, mapFind, hk]
  | cons kv t ih =>
    obtain ⟨k', v'⟩ := kv
    by_cases hkk : k' = k
    · subst hkk
      by_cases hk : k' = key <;> simp [mapAppend, mapFind, hk]
    · by_cases hk : k = key
      · subst hk
        rw [if_pos rfl] at ih
        simp [mapAppend, mapFind, hkk, ih]
      · rw [if_neg hk] at ih
        by_cases hk' : k' = key
        · subst hk'
          simp [mapAppend, mapFind, hkk, hk]
        · simp [mapAppend, mapFind, hkk, hk, hk', ih]

theorem mapFind_isSome_iff (h : List (Bytes × Bytes)) (key : Bytes) :
    (mapFind h key).isSome = true ↔ key ∈ h.map Prod.fst := by
  induction h with
  | nil => simp [mapFind]
  | cons kv t ih =>
    obtain ⟨k', v'⟩ := kv
    by_cases hk : k' = key
    · simp [mapFind, hk]
    · have hk2 : ¬ key = k' := fun e => hk e.symm
      simp [mapFind, hk, hk2, ih]

theorem mapFind_foldl (nvs : List (Bytes × Bytes)) (h : List (Bytes × Bytes)) (key : Bytes) :
    mapFind (nvs.foldl (fun h nv => mapAppend h (munge nv.1) (trim nv.2)) h) key =
      if ∃ nv ∈ nvs, munge nv.1 = key then
        some ((mapFind h key).getD [] ++ headerValue key nvs)
      else mapFind h key := by
  induction nvs generalizing h with
  | nil => simp
  | cons nv nvs ih =>
    rw [List.foldl_cons, ih, mapFind_mapAppend]
    by_cases h1 : munge nv.1 = key
    · by_cases h2 : ∃ x ∈ nvs, munge x.1 = key
      · simp [h1, h2, headerValue, List.filter_cons, concatAll]
      · have h3 : nvs.filter (fun x => decide (munge x.1 = key)) = [] := by
          rw [List.filter_eq_nil_iff]
          intro x hx hd
          exact h2 ⟨x, hx, by simpa using hd⟩
        simp [h1, h2, headerValue, List.filter_cons, concatAll, h3]
    · by_cases h2 : ∃ x ∈ nvs, munge x.1 = key
      · simp [h1, h2, headerValue, List.filter_cons]
      · simp [h1, h2]

theorem parseHeader_headerLine (r : HttpRequest) (nv : Bytes × Bytes) (h : ':' ∉ nv.1) :
    (parseHeader r (headerLine nv)).headers_ =
      mapAppend r.headers_ (munge nv.1) (trim nv.2) := by
  simp [parseHeader, headerLine, split_append_cons nv.1 _ ':' h, trim_space_cons]

theorem foldl_parseHeader_headers (nvs : List (Bytes × Bytes)) (r : HttpRequest)
    (h : ∀ nv ∈ nvs, ':' ∉ nv.1) :
    ((nvs.map headerLine).foldl parseHeader r).headers_ =
      nvs.foldl (fun h nv => mapAppend h (munge nv.1) (trim nv.2)) r.headers_ := by
  induction nvs generalizing r with
  | nil => rfl
  | cons nv nvs ih =>
    rw [List.map_cons, List.foldl_cons, List.foldl_cons,
      ih _ (fun x hx => h x (List.mem_cons_of_mem _ hx)),
      parseHeader_headerLine r nv (h nv (List.mem_cons_self _ _))]

theorem goodLine_headerLine (nv : Bytes × Bytes) (h : goodHeader nv) :
    goodLine (headerLine nv) := by
  obtain ⟨_, h2, h3, h4, h5, h6⟩ := h
  refine ⟨by simp [headerLine], ?_, ?_, ?_⟩
  · unfold headerLine
    cases hnm : nv.1 with
    | nil => simp
    | cons a t =>
      rw [hnm] at h6
      simpa using h6
  · simp [headerLine, h2, h4]
  · simp [headerLine, h3, h5]

/-- C2: on a fresh request, for a buffer made of a request line (at least two bytes, no LF),
`N >= 1` header lines `name_i: value_i` CR LF (no colon in a name, no CR or LF inside a line,
no line starting with a space) and the blank line, the header map left by `on_header` has as
keys exactly the normalized names `munge name_i`, and the value under a key is the
concatenation, in order of occurrence, of `trim value_i` over all lines with that normalized
name: a repeated name appends, and the last line before the blank line is included. -/
theorem on_header_header_map (err : error_code) (xfer : Nat) (r : HttpRequest) (rl : Bytes)
    (nvs : List (Bytes × Bytes)) (rest : Bytes) (herr : err.value = 0)
    (hfresh : r.headers_ = [])
    (hbuf : r.header_ =
      rl ++ '\r' :: '\n' :: (unlines (nvs.map headerLine) ++ '\r' :: '\n' :: rest))
    (hrl : 2 ≤ rl.length) (hrlnl : '\n' ∉ rl) (hne : nvs ≠ [])
    (hgood : ∀ nv ∈ nvs, goodHeader nv) (hn : r.header_.length < 2 ^ 64) :
    ∃ r', on_header err xfer r = .ok r' ∧
      ∀ key, (key ∈ r'.headers_.map Prod.fst ↔ ∃ nv ∈ nvs, munge nv.1 = key) ∧
        ((∃ nv ∈ nvs, munge nv.1 = key) →
          mapFind r'.headers_ key = some (headerValue key nvs)) := by
  have hne' : nvs.map headerLine ≠ [] := by simpa using hne
  have hgood' : ∀ l ∈ nvs.map headerLine, goodLine l := by
    intro l hl
    obtain ⟨nv, hnv, rfl⟩ := List.mem_map.1 hl
    exact goodLine_headerLine nv (hgood nv hnv)
  have hscan := scanHeaders_lines xfer r rl _ rest hbuf hrl hrlnl hne' hgood' hn
  have hon := on_header_of_scan err xfer r _ herr hscan
  have hhdr := foldl_parseHeader_headers nvs
    (parseMethod { r with headerSize_ := xfer, headerData_ := r.header_, header_ := [] } rl)
    (fun nv hnv => (hgood nv hnv).1)
  have hinit : (parseMethod
      { r with headerSize_ := xfer, headerData_ := r.header_, header_ := [] } rl).headers_
      = [] := hfresh
  rw [hinit] at hhdr
  have hfind : ∀ key, mapFind (((nvs.map headerLine).foldl parseHeader (parseMethod
      { r with headerSize_ := xfer, headerData_ := r.header_, header_ := [] } rl)).headers_)
      key = if ∃ nv ∈ nvs, munge nv.1 = key then some (headerValue key nvs) else none := by
    intro key
    rw [hhdr, mapFind_foldl]
    simp [mapFind]
  refine ⟨_, hon, ?_⟩
  have hsame : ∀ r2 : HttpRequest,
      (if r2.version_.length = 0 ∨ r2.headers_.length = 0 ∨ r2.headerSize_ = 0 then error r2
        else { r2 with
               trace := r2.trace ++ [Effect.fire .onHeader r2.onHeader_]
               onHeader_ := [] }).headers_ = r2.headers_ := by
    intro r2; split <;> rfl
  rw [hsame]
  intro key
  have hk := hfind key
  refine ⟨?_, ?_⟩
  · rw [← mapFind_isSome_iff]
    show (mapFind (((nvs.map headerLine).foldl parseHeader _).headers_) key).isSome = true ↔ _
    rw [hk]
    by_cases h : ∃ nv ∈ nvs, munge nv.1 = key
    · simp only [if_pos h, Option.isSome_some, true_iff]
      exact h
    · simp only [if_neg h, Option.isSome_none, h, iff_false]
      exact Bool.false_ne_true
  · intro h
    show mapFind (((nvs.map headerLine).foldl parseHeader _).headers_) key = _
    rw [hk, if_pos h]

theorem on_header_header_map_witness :
    ∃ r', on_header errc_success 47
        { header_ := "GET / HTTP/1.1\r\nHost: x\r\nA:  b \r\nhost: y\r\n\r\n".toList } = .ok r' ∧
      ∀ key,
        (key ∈ r'.headers_.map Prod.fst ↔
          ∃ nv ∈ [("Host".toList, "x".toList), ("A".toList, " b ".toList),
            ("host".toList, "y".toList)], munge nv.1 = key) ∧
        ((∃ nv ∈ [("Host".toList, "x".toList), ("A".toList, " b ".toList),
            ("host".toList, "y".toList)], munge nv.1 = key) →
          mapFind r'.headers_ key = some (headerValue key
            [("Host".toList, "x".toList), ("A".toList, " b ".toList),
              ("host".toList, "y".toList)])) :=
  on_header_header_map errc_success 47
    { header_ := "GET / HTTP/1.1\r\nHost: x\r\nA:  b \r\nhost: y\r\n\r\n".toList }
    "GET / HTTP/1.1".toList
    [("Host".toList, "x".toList), ("A".toList, " b ".toList), ("host".toList, "y".toList)]
    [] rfl rfl rfl (by decide) (by decide) (by decide) (by decide) (by decide)

/-! ## The outcome of the header phase -/

/-- Apart from the buffers of fewer than five bytes delivered without error, every completion
of the header read has exactly one outcome.  With a transport error, or with a buffer of at
least five bytes, `on_header` returns, and its trace grows by one signal invocation:
`onHeader_` (whose slots are then disconnected) when there was no transport error and the
request is well-formed after the scan, `onError_` (all three signals disconnected) in every
other case. -/
theorem on_header_outcome (err : error_code) (xfer : Nat) (r : HttpRequest)
    (hlen : err.value = 0 → 5 ≤ r.header_.length) (hn : r.header_.length < 2 ^ 64) :
    ∃ r3, on_header err xfer r = .ok r3 ∧
      (((r3.trace = r.trace ++ [Effect.fire .onHeader r.onHeader_] ∧ r3.onHeader_ = []) ∧
          (err.value = 0 ∧ ∃ r2, scanHeaders xfer r = .ok r2 ∧ wellFormed r2)) ∨
       ((r3.trace = r.trace ++ [Effect.fire .onError r.onError_] ∧ r3.onHeader_ = [] ∧
            r3.onBody_ = [] ∧ r3.onError_ = []) ∧
          ¬ (err.value = 0 ∧ ∃ r2, scanHeaders xfer r = .ok r2 ∧ wellFormed r2))) := by
  by_cases herr : err.value = 0
  · obtain ⟨r2, hscan, _, f2, _, f4, f5, _, _⟩ := scanHeaders_spec xfer r (hlen herr) hn
    refine ⟨_, on_header_of_scan err xfer r r2 herr hscan, ?_⟩
    by_cases hbad : r2.version_.length = 0 ∨ r2.headers_.length = 0 ∨ r2.headerSize_ = 0
    · right
      rw [if_pos hbad]
      refine ⟨⟨by simp [error, f4, f5], rfl, rfl, rfl⟩, ?_⟩
      rintro ⟨_, r2', hscan', hv, hh, hs⟩
      rw [hscan] at hscan'
      cases hscan'
      rcases hbad with h | h | h
      · exact hv (List.length_eq_zero.1 h)
      · exact hh (List.length_eq_zero.1 h)
      · exact hs h
    · left
      rw [if_neg hbad]
      refine ⟨⟨by simp [f2, f5], rfl⟩, herr, r2, hscan, ?_⟩
      simp only [not_or] at hbad
      exact ⟨fun h => hbad.1 (by simp [h]), fun h => hbad.2.1 (by simp [h]), hbad.2.2⟩
  · refine ⟨error r, by simp [on_header, herr], Or.inr ⟨⟨rfl, rfl, rfl, rfl⟩, ?_⟩⟩
    rintro ⟨h, _⟩
    exact herr h

/-- C4, the failing completion: `async_read_until` completes without error as soon as the
buffer holds CR LF CR LF, so these four bytes alone are a completion `on_header` receives.
With `n = 4` the loop bound `n-2` is 2, below the start `p = 3`: the loop takes the first CR LF
for a request line, goes on and reads `headerData_[5]`, past the end of the string.  No
outcome is reached, where this malformed input is to take the error outcome. -/
theorem on_header_crlfcrlf_reads_out_of_bounds :
    on_header errc_success 4 { header_ := ['\r', '\n', '\r', '\n'], onError_ := [0] } =
      .error .outOfBounds := by
  rfl

/-! ## Decimal numbers -/

theorem digitChar_isDigit (k : Nat) (hk : k < 10) :
    (Nat.digitChar k).isDigit = true ∧ (Nat.digitChar k).toNat - 48 = k := by
  interval_cases k <;> decide

theorem digitsValue_toDigitsCore :
    ∀ (fuel n : Nat) (ds : Bytes), n < fuel →
      digitsValue (Nat.toDigitsCore 10 fuel n ds) 0 = digitsValue ds n := by
  intro fuel
  induction fuel with
  | zero => intro n ds h; omega
  | succ fuel ih =>
    intro n ds h
    obtain ⟨hd1, hd2⟩ := digitChar_isDigit (n % 10) (Nat.mod_lt _ (by omega))
    have hstep : digitsValue (Nat.digitChar (n % 10) :: ds) (n / 10) = digitsValue ds n := by
      rw [digitsValue, if_pos hd1, hd2]
      congr 1
      omega
    by_cases h0 : n / 10 = 0
    · simp only [Nat.toDigitsCore, h0, if_true]
      rw [← h0]
      exact hstep
    · simp only [Nat.toDigitsCore, h0, if_false]
      rw [ih (n / 10) _ (by omega)]
      exact hstep

theorem toDigitsCore_ne_nil :
    ∀ (fuel n : Nat) (ds : Bytes), ds ≠ [] → Nat.toDigitsCore 10 fuel n ds ≠ [] := by
  intro fuel
  induction fuel with
  | zero => intro n ds h; simpa [Nat.toDigitsCore] using h
  | succ fuel ih =>
    intro n ds _
    by_cases h0 : n / 10 = 0
    · simp [Nat.toDigitsCore, h0]
    · simp only [Nat.toDigitsCore, h0, if_false]
      exact ih _ _ (by simp)

/-- The conversion of `readBody` reads a decimal number back: the digits of `L`, as
`lexical_cast<std::string>` writes them, convert to `L` when `L` fits `size_t`. -/
theorem lexical_cast_size_t_decimal (L : Nat) (hL : L < 2 ^ 64) :
    lexical_cast_size_t (decimal L) = .ok L := by
  have hval : digitsValue (decimal L) 0 = some L := by
    show digitsValue (Nat.toDigitsCore 10 (L + 1) L []) 0 = some L
    rw [digitsValue_toDigitsCore _ _ _ (by omega)]
    rfl
  have hne : decimal L ≠ [] := by
    show Nat.toDigitsCore 10 (L + 1) L [] ≠ []
    by_cases h0 : L / 10 = 0
    · simp [Nat.toDigitsCore, h0]
    · simp only [Nat.toDigitsCore, h0, if_false]
      exact toDigitsCore_ne_nil _ _ _ (by simp)
  cases hs : decimal L with
  | nil => exact absurd hs hne
  | cons c t =>
    rw [hs] at hval
    have hc : c.isDigit = true := by
      by_contra hc
      rw [digitsValue, if_neg hc] at hval
      cases hval
    have hm : c ≠ '-' := by
      intro h; rw [h] at hc; exact absurd hc (by decide)
    have hp : c ≠ '+' := by
      intro h; rw [h] at hc; exact absurd hc (by decide)
    unfold lexical_cast_size_t
    split
    · rename_i heq
      exact absurd (List.cons.inj heq).1 hm
    · rename_i heq
      exact absurd (List.cons.inj heq).1 hp
    · have hL' : L < 18446744073709551616 := hL
      simp [hval, hL']

/-! ## What `readBody` and `on_body` do -/

theorem resize_length (v : Bytes) (len : Nat) : (resize v len).length = len := by
  simp only [resize, List.length_append, List.length_take, List.length_replicate]; omega

theorem afterCopy_length (r : HttpRequest) (L : Nat) : (afterCopy r L).bodyData_.length = L := by
  simp only [afterCopy, List.length_append, List.length_take, List.length_drop, resize_length]
  omega

theorem readBody_eq (r : HttpRequest) (cl : Bytes) (L : Nat)
    (hcl : header r "Content-Length".toList = some cl)
    (hL : lexical_cast_size_t cl = .ok L) :
    readBody r =
      if L ≤ r.headerData_.length - r.headerSize_ then
        .ok (on_body errc_success 0 (afterCopy r L))
      else if r.socketOpen = false then
        .error (.exception "std::exception")
      else
        .ok { afterCopy r L with
              trace := r.trace ++ [Effect.asyncRead (afterCopy r L).bodyRead_
                (L - (afterCopy r L).bodyRead_)] } := by
  generalize hrr : r.headerData_.length - r.headerSize_ = rr
  have hdrop : (r.headerData_.drop r.headerSize_).length = rr := by
    simp [hrr]
  by_cases hcopy : r.headerSize_ < r.headerData_.length ∧ L > 0
  · have hc : (if rr > L then L else rr) = min L rr := by
      split <;> omega
    have hr2 : ({ r with
        bodyData_ := copyToFront r.headerData_ r.headerSize_ (min L rr) (resize r.bodyData_ L)
        bodyRead_ := min L rr } : HttpRequest) = afterCopy r L := by
      simp [afterCopy, copyToFront, hrr]
    unfold readBody
    simp only [hcl, hL, hcopy, hrr, hc, and_self, if_true, hr2, afterCopy_length]
    have hbr : (afterCopy r L).bodyRead_ = min L rr := by simp [afterCopy, hrr]
    have hso : (afterCopy r L).socketOpen = r.socketOpen := rfl
    have htr : (afterCopy r L).trace = r.trace := rfl
    rw [hbr, hso, htr]
    by_cases hle : L ≤ rr
    · rw [if_pos (by omega), if_pos hle]
      congr 2
      omega
    · rw [if_neg (by omega), if_neg hle]
  · have hz : min L rr = 0 := by
      rw [not_and_or] at hcopy
      rcases hcopy with h | h <;> omega
    have hr2 : ({ r with bodyData_ := resize r.bodyData_ L, bodyRead_ := 0 } : HttpRequest) =
        afterCopy r L := by
      simp [afterCopy, hrr, hz]
    unfold readBody
    simp only [hcl, hL, hcopy, if_false, hr2, afterCopy_length]
    have hbr : (afterCopy r L).bodyRead_ = 0 := by simp [afterCopy, hrr, hz]
    have hso : (afterCopy r L).socketOpen = r.socketOpen := rfl
    have htr : (afterCopy r L).trace = r.trace := rfl
    rw [hbr, hso, htr]
    by_cases hle : L ≤ rr
    · rw [if_pos (by omega), if_pos hle]
      congr 2
      omega
    · rw [if_neg (by omega), if_neg hle]

theorem bodyReadComplete_bodyData (data : Bytes) (r : HttpRequest) :
    (bodyReadComplete errc_success data r).bodyData_ =
      r.bodyData_.take r.bodyRead_ ++ data ++ r.bodyData_.drop (r.bodyRead_ + data.length) := by
  simp [bodyReadComplete, on_body, errc_success]

/-- C5: for a parsed request (its socket open) whose `Content-Length` value converts to `L`
(as the decimal digits of every `L` below `2^64` do), `L` being a length the body buffer can
have (`L <= vector_max_size`; beyond it `bodyData_.resize(len)` throws `std::length_error` and
`readBody` does not return), and whose header buffer holds
`headerData_.size() - headerSize_` bytes beyond `headerSize_`, with `c` the smaller of the two,
`readBody` returns with `bodyData_` of size exactly `L` (a size it can have), its first `c` bytes being the bytes at
`headerSize_ .. headerSize_ + c` of the header buffer, and `bodyRead_ = c <= L`; when `c < L`
the one thing it does is to queue a read of exactly `L - c` bytes into offset `c`, and when
`c = L` it queues no read.  Hence, when the bytes `S` that follow the header block on the
stream begin with the over-read part and the socket then delivers the next `L - c` of them,
the body buffer is the first `L` bytes of `S`. -/
theorem readBody_fills_body (r : HttpRequest) (cl : Bytes) (L : Nat)
    (hcl : header r "Content-Length".toList = some cl)
    (hL : lexical_cast_size_t cl = .ok L) (hmax : L ≤ vector_max_size)
    (hopen : r.socketOpen = true) :
    ∃ r', readBody r = .ok r' ∧
      r'.bodyData_.length = L ∧ r'.bodyData_.length ≤ vector_max_size ∧
      r'.bodyData_.take (min L (r.headerData_.length - r.headerSize_)) =
        (r.headerData_.drop r.headerSize_).take (min L (r.headerData_.length - r.headerSize_)) ∧
      r'.bodyRead_ = min L (r.headerData_.length - r.headerSize_) ∧
      r'.bodyRead_ ≤ L ∧
      (r'.trace = if r'.bodyRead_ < L then
          r.trace ++ [Effect.asyncRead r'.bodyRead_ (L - r'.bodyRead_)]
        else r.trace ++ [Effect.fire .onBody r.onBody_]) ∧
      ∀ S : Bytes, L ≤ S.length →
        r.headerData_.drop r.headerSize_ = S.take (r.headerData_.length - r.headerSize_) →
        (if r'.bodyRead_ < L then
          (bodyReadComplete errc_success
            ((S.drop r'.bodyRead_).take (L - r'.bodyRead_)) r').bodyData_
         else r'.bodyData_) = S.take L := by
  have heq := readBody_eq r cl L hcl hL
  have hlenA := afterCopy_length r L
  generalize hrr : r.headerData_.length - r.headerSize_ = rr at heq ⊢
  have hdrop : (r.headerData_.drop r.headerSize_).length = rr := by
    simp [hrr]
  have hbr : (afterCopy r L).bodyRead_ = min L rr := by simp [afterCopy, hrr]
  have hbd : (afterCopy r L).bodyData_ =
      (r.headerData_.drop r.headerSize_).take (min L rr) ++
        (resize r.bodyData_ L).drop (min L rr) := by
    simp [afterCopy, hrr]
  have htake : (afterCopy r L).bodyData_.take (min L rr) =
      (r.headerData_.drop r.headerSize_).take (min L rr) := by
    rw [hbd, List.take_append_of_le_length (by simp [hdrop])]
    simp
  by_cases hle : L ≤ rr
  · rw [if_pos hle] at heq
    have hmin : min L rr = L := by omega
    refine ⟨_, heq, ?_⟩
    have e1 : (on_body errc_success 0 (afterCopy r L)).bodyData_ = (afterCopy r L).bodyData_ := by
      simp [on_body, errc_success]
    have e2 : (on_body errc_success 0 (afterCopy r L)).bodyRead_ = min L rr := by
      simp [on_body, errc_success, hbr]
    have e3 : (on_body errc_success 0 (afterCopy r L)).trace =
        r.trace ++ [Effect.fire .onBody r.onBody_] := by
      simp [on_body, errc_success, afterCopy]
    rw [e1, e2, e3]
    refine ⟨hlenA, le_of_eq_of_le hlenA hmax, htake, rfl, by omega, by rw [if_neg (by omega)], ?_⟩
    intro S hS hover
    have hd0 : (resize r.bodyData_ L).drop L = [] :=
      List.drop_of_length_le (by rw [resize_length])
    rw [if_neg (by omega), hbd, hmin, hd0, List.append_nil, hover, List.take_take, hmin]
  · rw [if_neg hle, if_neg (by simp [hopen])] at heq
    have hmin : min L rr = rr := by omega
    refine ⟨_, heq, ?_⟩
    show (afterCopy r L).bodyData_.length = L ∧
      (afterCopy r L).bodyData_.length ≤ vector_max_size ∧
      (afterCopy r L).bodyData_.take (min L rr) = _ ∧
      (afterCopy r L).bodyRead_ = min L rr ∧ (afterCopy r L).bodyRead_ ≤ L ∧
      (r.trace ++ [Effect.asyncRead (afterCopy r L).bodyRead_ (L - (afterCopy r L).bodyRead_)] =
        if (afterCopy r L).bodyRead_ < L then
          r.trace ++ [Effect.asyncRead (afterCopy r L).bodyRead_
            (L - (afterCopy r L).bodyRead_)]
        else r.trace ++ [Effect.fire .onBody r.onBody_]) ∧
      ∀ S : Bytes, L ≤ S.length →
        r.headerData_.drop r.headerSize_ = S.take rr →
        (if (afterCopy r L).bodyRead_ < L then
          (bodyReadComplete errc_success
            ((S.drop (afterCopy r L).bodyRead_).take (L - (afterCopy r L).bodyRead_))
            { afterCopy r L with
              trace := r.trace ++ [Effect.asyncRead (afterCopy r L).bodyRead_
                (L - (afterCopy r L).bodyRead_)] }).bodyData_
         else (afterCopy r L).bodyData_) = S.take L
    rw [hbr]
    refine ⟨hlenA, le_of_eq_of_le hlenA hmax, htake, rfl, by omega, by rw [if_pos (by omega)], ?_⟩
    intro S hS hover
    rw [if_pos (by omega), hmin]
    have h2 : (List.take rr S).length = rr := by
      rw [List.length_take]; omega
    have h3 : (List.take (L - rr) (List.drop rr S)).length = L - rr := by
      rw [List.length_take, List.length_drop]; omega
    have hB : (afterCopy r L).bodyData_ = S.take rr ++ (resize r.bodyData_ L).drop rr := by
      rw [hbd, hmin, List.take_of_length_le (by omega), hover]
    have hB1 : (afterCopy r L).bodyData_.take rr = S.take rr := by
      rw [hB, List.take_append_of_le_length (by omega), List.take_of_length_le (by omega)]
    have hB2 : (afterCopy r L).bodyData_.drop
        (rr + (List.take (L - rr) (List.drop rr S)).length) = [] :=
      List.drop_of_length_le (by rw [hlenA, h3]; omega)
    rw [bodyReadComplete_bodyData]
    show (afterCopy r L).bodyData_.take (afterCopy r L).bodyRead_ ++
        List.take (L - rr) (List.drop rr S) ++
        (afterCopy r L).bodyData_.drop
          ((afterCopy r L).bodyRead_ + (List.take (L - rr) (List.drop rr S)).length) =
      S.take L
    rw [hbr, hmin, hB1, hB2, List.append_nil]
    have h4 : L = rr + (L - rr) := by omega
    conv_rhs => rw [h4, List.take_add]

theorem readBody_fills_body_witness :
    ∃ r', readBody
        { headers_ := [("content-length".toList, "5".toList)]
          headerData_ := "POST /x HTTP/1.1\r\nContent-Length: 5\r\n\r\nhe".toList
          headerSize_ := 39 } = .ok r' ∧
      r'.bodyData_.length = 5 ∧ r'.bodyData_.length ≤ vector_max_size ∧
      r'.bodyData_.take (min 5 (41 - 39)) = ("he".toList).take (min 5 (41 - 39)) ∧
      r'.bodyRead_ = min 5 (41 - 39) ∧
      r'.bodyRead_ ≤ 5 ∧
      (r'.trace = if r'.bodyRead_ < 5 then
          [] ++ [Effect.asyncRead r'.bodyRead_ (5 - r'.bodyRead_)]
        else [] ++ [Effect.fire .onBody []]) ∧
      ∀ S : Bytes, 5 ≤ S.length → "he".toList = S.take (41 - 39) →
        (if r'.bodyRead_ < 5 then
          (bodyReadComplete errc_success
            ((S.drop r'.bodyRead_).take (5 - r'.bodyRead_)) r').bodyData_
         else r'.bodyData_) = S.take 5 :=
  readBody_fills_body
    { headers_ := [("content-length".toList, "5".toList)]
      headerData_ := "POST /x HTTP/1.1\r\nContent-Length: 5\r\n\r\nhe".toList
      headerSize_ := 39 }
    "5".toList 5 (by decide) rfl (by decide) rfl

/-- The example of the specification: `Content-Length: 5`, `he` over-read with the headers,
`llo` read afterwards, and the body buffer is `hello`. -/
theorem readBody_hello :
    (readBody
        { headers_ := [("content-length".toList, "5".toList)]
          headerData_ := "POST /x HTTP/1.1\r\nContent-Length: 5\r\n\r\nhe".toList
          headerSize_ := 39 }).map
      (fun r' => (r'.trace, (bodyReadComplete errc_success "llo".toList r').bodyData_)) =
      .ok ([Effect.asyncRead 2 3], "hello".toList) := by
  rfl

/-- C6: when nothing remains to be read, that is when `L` (the converted `Content-Length`) is
at most the number of bytes held beyond `headerSize_` (so `L = 0`, or at least `L` bytes
over-read), `readBody` calls `on_body` itself with the success code and zero bytes: it returns
with the trace grown by exactly one invocation of `onBody_`, so no read is queued and
`onError_` is not invoked, and with `onBody_` and `onError_` disconnected. -/
theorem readBody_nothing_left (r : HttpRequest) (cl : Bytes) (L : Nat)
    (hcl : header r "Content-Length".toList = some cl)
    (hL : lexical_cast_size_t cl = .ok L)
    (hzero : L ≤ r.headerData_.length - r.headerSize_) :
    ∃ r2 r', readBody r = .ok r' ∧ r' = on_body errc_success 0 r2 ∧
      r2.bodyData_.length - r2.bodyRead_ = 0 ∧
      r'.trace = r.trace ++ [Effect.fire .onBody r.onBody_] ∧
      r'.onBody_ = [] ∧ r'.onError_ = [] ∧
      r'.hs_sInfo_ = r.hs_sInfo_ := by
  have heq := readBody_eq r cl L hcl hL
  rw [if_pos hzero] at heq
  refine ⟨afterCopy r L, _, heq, rfl, ?_, ?_, ?_, ?_, ?_⟩
  · rw [afterCopy_length]
    have : (afterCopy r L).bodyRead_ = L := by
      simp [afterCopy]; omega
    omega
  · simp [on_body, errc_success, afterCopy]
  · simp [on_body, errc_success]
  · simp [on_body, errc_success]
  · simp [on_body, errc_success, afterCopy]

theorem readBody_nothing_left_witness :
    ∃ r2 r', readBody
        { headers_ := [("content-length".toList, "5".toList)]
          headerData_ := "POST /x HTTP/1.1\r\nContent-Length: 5\r\n\r\nhello!".toList
          headerSize_ := 39, onBody_ := [7], onError_ := [8], socketOpen := false } = .ok r' ∧
      r' = on_body errc_success 0 r2 ∧
      r2.bodyData_.length - r2.bodyRead_ = 0 ∧
      r'.trace = [] ++ [Effect.fire .onBody [7]] ∧
      r'.onBody_ = [] ∧ r'.onError_ = [] ∧
      r'.hs_sInfo_ = {} :=
  readBody_nothing_left
    { headers_ := [("content-length".toList, "5".toList)]
      headerData_ := "POST /x HTTP/1.1\r\nContent-Length: 5\r\n\r\nhello!".toList
      headerSize_ := 39, onBody_ := [7], onError_ := [8], socketOpen := false }
    "5".toList 5 (by decide) rfl (by decide)

/-- C7 (amended): a completion of the body read that reports a transport error other than the
end-of-stream code of the misc category, with a transferred count greater than zero, takes
the error outcome: `on_body` is `error()`, so `onError_` is invoked (once, the error counter
goes up by one, all signals are disconnected) and `onBody_` is not. -/
theorem on_body_error_outcome (err : error_code) (xfer : Nat) (r : HttpRequest)
    (herr : err.value ≠ 0) (hneof : ¬ (err.category = .misc ∧ err.value = asio_eof))
    (hx : 0 < xfer) :
    on_body err xfer r = error r ∧
      (on_body err xfer r).trace = r.trace ++ [Effect.fire .onError r.onError_] ∧
      (on_body err xfer r).hs_sInfo_.numErrors = r.hs_sInfo_.numErrors + 1 := by
  have h : on_body err xfer r = error r := by
    unfold on_body
    rw [if_pos]
    refine ⟨herr, hx, ?_⟩
    by_cases hc : err.category = .misc
    · exact Or.inr (fun hv => hneof ⟨hc, hv⟩)
    · exact Or.inl hc
  rw [h]
  exact ⟨rfl, rfl, rfl⟩

theorem on_body_error_outcome_witness :
    on_body ⟨104, .system⟩ 3 { onBody_ := [7], onError_ := [8] } =
        error { onBody_ := [7], onError_ := [8] } ∧
      (on_body ⟨104, .system⟩ 3 { onBody_ := [7], onError_ := [8] }).trace =
        [] ++ [Effect.fire .onError [8]] ∧
      (on_body ⟨104, .system⟩ 3 { onBody_ := [7], onError_ := [8] }).hs_sInfo_.numErrors =
        0 + 1 :=
  on_body_error_outcome ⟨104, .system⟩ 3 { onBody_ := [7], onError_ := [8] }
    (by decide) (by decide) (by decide)

/-- C7 fails as stated: a completion reporting the system error 104 (connection reset), not
an end of stream, with zero bytes transferred, passes the `xfer > 0` guard of `on_body`:
`onBody_` is invoked and `onError_` is not, and the error counter stays. -/
theorem on_body_error_zero_bytes_counterexample :
    (⟨104, .system⟩ : error_code).value ≠ 0 ∧
    ¬ ((⟨104, .system⟩ : error_code).category = .misc ∧
        (⟨104, .system⟩ : error_code).value = asio_eof) ∧
    (on_body ⟨104, .system⟩ 0 { onBody_ := [7], onError_ := [8] }).trace =
      [Effect.fire .onBody [7]] ∧
    (on_body ⟨104, .system⟩ 0 { onBody_ := [7], onError_ := [8] }).hs_sInfo_.numErrors = 0 ∧
    on_body ⟨104, .system⟩ 0 { onBody_ := [7], onError_ := [8] } ≠
      error { onBody_ := [7], onError_ := [8] } := by
  decide

/-! ## What `appendReply` and `doReply` write -/

theorem foldl_appendReply (chunks : List Bytes) (r : HttpRequest) :
    chunks.foldl appendReply r = { r with reply_ := r.reply_ ++ concatAll chunks } := by
  induction chunks generalizing r with
  | nil => simp [concatAll]
  | cons b bs ih =>
    rw [List.foldl_cons, ih]
    simp [appendReply, concatAll]

theorem doReply_trace (r : HttpRequest) (code : Int) (ctype xheaders : Bytes) :
    (doReply r code ctype xheaders).trace =
      r.trace ++
        [Effect.asyncWrite (replyHeaders code ctype r.reply_.length xheaders ++ r.reply_)] := by
  unfold doReply
  by_cases h : code ≥ 400 <;> simp [h]

/-- C8: after `appendReply` of the chunks `b_1 .. b_k` on a request whose reply buffer was
empty, `doReply(code, ctype, extra)` hands to the write the bytes `H ++ B`, `B` being
`b_1 ++ ... ++ b_k` in call order, where `H` starts with `HTTP/1.1 <decimal code> `, and
contains the lines `Content-Length: <decimal length of B>` CR LF, the length being that of
`B` alone, and `Connection: close` CR LF; for an empty `B` the value is `0`. -/
theorem doReply_bytes (r : HttpRequest) (chunks : List Bytes) (code : Int)
    (ctype extra : Bytes) (hfresh : r.reply_ = []) :
    ∃ H, (doReply (chunks.foldl appendReply r) code ctype extra).trace =
        r.trace ++ [Effect.asyncWrite (H ++ concatAll chunks)] ∧
      ("HTTP/1.1 ".toList ++ decimalInt code ++ " ".toList) <+: H ∧
      ("\r\nContent-Length: ".toList ++ decimal (concatAll chunks).length ++ "\r\n".toList)
        <:+: H ∧
      "\r\nConnection: close\r\n".toList <:+: H ∧
      (concatAll chunks = [] → "\r\nContent-Length: 0\r\n".toList <:+: H) := by
  refine ⟨replyHeaders code ctype (concatAll chunks).length extra, ?_, ?_, ?_, ?_, ?_⟩
  · rw [doReply_trace, foldl_appendReply]
    simp [hfresh]
  · exact ⟨"(that\x27s a status code)".toList ++ "\r\n".toList
        ++ "Content-Type: ".toList ++ ctype ++ "\r\n".toList
        ++ "Content-Length: ".toList ++ decimal (concatAll chunks).length ++ "\r\n".toList
        ++ "Connection: close".toList ++ "\r\n".toList ++ extra ++ "\r\n".toList,
      by simp [replyHeaders]⟩
  · exact ⟨"HTTP/1.1 ".toList ++ decimalInt code ++ " (that\x27s a status code)".toList
        ++ "\r\n".toList ++ "Content-Type: ".toList ++ ctype,
      "Connection: close".toList ++ "\r\n".toList ++ extra ++ "\r\n".toList,
      by simp [replyHeaders]⟩
  · exact ⟨"HTTP/1.1 ".toList ++ decimalInt code ++ " (that\x27s a status code)".toList
        ++ "\r\n".toList ++ "Content-Type: ".toList ++ ctype ++ "\r\n".toList
        ++ "Content-Length: ".toList ++ decimal (concatAll chunks).length,
      extra ++ "\r\n".toList,
      by simp [replyHeaders]⟩
  · intro hB
    rw [hB]
    have h0 : decimal 0 = ['0'] := rfl
    exact ⟨"HTTP/1.1 ".toList ++ decimalInt code ++ " (that\x27s a status code)".toList
        ++ "\r\n".toList ++ "Content-Type: ".toList ++ ctype,
      "Connection: close".toList ++ "\r\n".toList ++ extra ++ "\r\n".toList,
      by simp [replyHeaders, h0]⟩

theorem doReply_bytes_witness :
    (∃ H, (doReply (["he".toList, "llo".toList].foldl appendReply {}) 200 "text/plain".toList
          []).trace =
        [] ++ [Effect.asyncWrite (H ++ concatAll ["he".toList, "llo".toList])] ∧
      ("HTTP/1.1 ".toList ++ decimalInt 200 ++ " ".toList) <+: H ∧
      ("\r\nContent-Length: ".toList ++ decimal (concatAll ["he".toList, "llo".toList]).length
        ++ "\r\n".toList) <:+: H ∧
      "\r\nConnection: close\r\n".toList <:+: H ∧
      (concatAll ["he".toList, "llo".toList] = [] →
        "\r\nContent-Length: 0\r\n".toList <:+: H)) ∧
    (∃ H, (doReply (([] : List Bytes).foldl appendReply {}) 404 "text/plain".toList
          []).trace = [] ++ [Effect.asyncWrite (H ++ concatAll [])] ∧
      "\r\nContent-Length: 0\r\n".toList <:+: H) :=
  ⟨doReply_bytes {} ["he".toList, "llo".toList] 200 "text/plain".toList [] rfl,
    (doReply_bytes {} [] 404 "text/plain".toList [] rfl).elim
      (fun H h => ⟨H, h.1, h.2.2.2.2 rfl⟩)⟩

/-- The example of the specification: `sendReply(404, "text/plain", "")` on an empty reply
body writes a response whose `Content-Length` is 0, and `httpErrors` goes up by one. -/
theorem doReply_404_empty :
    (doReply {} 404 "text/plain".toList []).trace =
      [Effect.asyncWrite ("HTTP/1.1 404 (that\x27s a status code)\r\nContent-Type: text/plain\r\n"
        ++ "Content-Length: 0\r\nConnection: close\r\n\r\n").toList] ∧
    (doReply {} 404 "text/plain".toList []).hs_sInfo_.httpErrors = 1 := by
  decide

/-- C9 (amended): for every status code, content type, extra-header text `x` and accumulated
body `B`, the bytes written by `doReply` are exactly the status line, `Content-Type: <ctype>`
CR LF, `Content-Length: <n>` CR LF, `Connection: close` CR LF, then `x`, then one CR LF, then
`B`: the extra-header text is followed by a single CR LF, so that the header block ends in an
empty line right before the body when `x` is empty or itself ends with CR LF. -/
theorem doReply_wire_format (r : HttpRequest) (code : Int) (ctype x : Bytes) :
    (doReply r code ctype x).trace = r.trace ++ [Effect.asyncWrite
      ("HTTP/1.1 ".toList ++ decimalInt code ++ " (that\x27s a status code)\r\n".toList ++
        "Content-Type: ".toList ++ ctype ++ "\r\n".toList ++
        "Content-Length: ".toList ++ decimal r.reply_.length ++ "\r\n".toList ++
        "Connection: close\r\n".toList ++ x ++ "\r\n".toList ++ r.reply_)] ∧
    ((x = [] ∨ "\r\n".toList <:+ x) →
      ("\r\n\r\n".toList ++ r.reply_) <:+
        (replyHeaders code ctype r.reply_.length x ++ r.reply_)) := by
  refine ⟨?_, ?_⟩
  · rw [doReply_trace]
    simp [replyHeaders]
  · rintro (rfl | ⟨t, rfl⟩)
    · exact ⟨"HTTP/1.1 ".toList ++ decimalInt code ++ " (that\x27s a status code)".toList
        ++ "\r\n".toList ++ "Content-Type: ".toList ++ ctype ++ "\r\n".toList
        ++ "Content-Length: ".toList ++ decimal r.reply_.length ++ "\r\n".toList
        ++ "Connection: close".toList, by simp [replyHeaders]⟩
    · exact ⟨"HTTP/1.1 ".toList ++ decimalInt code ++ " (that\x27s a status code)".toList
        ++ "\r\n".toList ++ "Content-Type: ".toList ++ ctype ++ "\r\n".toList
        ++ "Content-Length: ".toList ++ decimal r.reply_.length ++ "\r\n".toList
        ++ "Connection: close".toList ++ "\r\n".toList ++ t, by simp [replyHeaders]⟩

theorem doReply_wire_format_witness :
    ("\r\n\r\n".toList ++ "hi".toList) <:+
      (replyHeaders 200 "text/plain".toList 2 "X-A: b\r\n".toList ++ "hi".toList) :=
  (doReply_wire_format { reply_ := "hi".toList } 200 "text/plain".toList
    "X-A: b\r\n".toList).2 (Or.inr ⟨"X-A: b".toList, rfl⟩)

/-- C9 fails as stated: with the extra-header text `X-A: b` and the body `hi`, `doReply`
writes `X-A: b` CR LF `hi`, not `X-A: b` CR LF CR LF `hi`: one CR LF follows the text, and
here no empty line separates the header block from the body. -/
theorem doReply_wire_format_counterexample :
    (doReply { reply_ := "hi".toList } 200 "text/plain".toList "X-A: b".toList).trace =
      [Effect.asyncWrite ("HTTP/1.1 200 (that\x27s a status code)\r\nContent-Type: text/plain\r\n"
        ++ "Content-Length: 2\r\nConnection: close\r\nX-A: b\r\nhi").toList] ∧
    (doReply { reply_ := "hi".toList } 200 "text/plain".toList "X-A: b".toList).trace ≠
      [Effect.asyncWrite ("HTTP/1.1 200 (that\x27s a status code)\r\nContent-Type: text/plain\r\n"
        ++ "Content-Length: 2\r\nConnection: close\r\nX-A: b\r\n\r\nhi").toList] := by
  decide

/-- C10: `doReply` adds exactly 1 to `httpErrors` when `code >= 400` and leaves it as it is
when `code < 400`; in both cases `numRequests` (total requests), `numErrors` (accept errors),
`current` (active connections) and `port` are unchanged. -/
theorem doReply_counters (r : HttpRequest) (code : Int) (ctype x : Bytes) :
    (doReply r code ctype x).hs_sInfo_.httpErrors =
        (if 400 ≤ code then r.hs_sInfo_.httpErrors + 1 else r.hs_sInfo_.httpErrors) ∧
    (doReply r code ctype x).hs_sInfo_.numRequests = r.hs_sInfo_.numRequests ∧
    (doReply r code ctype x).hs_sInfo_.numErrors = r.hs_sInfo_.numErrors ∧
    (doReply r code ctype x).hs_sInfo_.current = r.hs_sInfo_.current ∧
    (doReply r code ctype x).hs_sInfo_.port = r.hs_sInfo_.port := by
  unfold doReply
  by_cases h : 400 ≤ code <;> simp [h]

/-! ## What `readHeaders` refuses -/

/-- Once a header read has completed without transport error on a buffer of at least five
bytes, `headerData_` is not empty and `readHeaders` throws. -/
theorem readHeaders_after_on_header (err : error_code) (xfer : Nat) (r r' : HttpRequest)
    (herr : err.value = 0) (h5 : 5 ≤ r.header_.length) (hn : r.header_.length < 2 ^ 64)
    (hon : on_header err xfer r = .ok r') :
    readHeaders r' = .error (.exception "Can\x27t readHeaders() twice!") := by
  obtain ⟨r2, hscan, _, _, _, _, _, hdata, _⟩ := scanHeaders_spec xfer r h5 hn
  rw [on_header_of_scan err xfer r r2 herr hscan] at hon
  have hd : r'.headerData_ = r.header_ := by
    rw [← Except.ok.inj hon]
    split <;> exact hdata
  unfold readHeaders
  rw [if_pos (by rw [hd]; omega)]

/-- C13, the failing calls: `readHeaders` looks at `headerData_`, which only a header read
completed without transport error fills.  Called a second time while the first read is still
pending, it returns normally and queues a second `async_read_until`; so it does after the
first read completed with a transport error (here the system error 104). -/
theorem readHeaders_twice_not_refused :
    readHeaders {} = .ok { trace := [Effect.asyncReadUntil] } ∧
    readHeaders { trace := [Effect.asyncReadUntil] } =
      .ok { trace := [Effect.asyncReadUntil, Effect.asyncReadUntil] } ∧
    on_header ⟨104, .system⟩ 0 { trace := [Effect.asyncReadUntil] } =
      .ok { hs_sInfo_ := { numErrors := 1 }
            trace := [Effect.asyncReadUntil, Effect.fire .onError []] } ∧
    readHeaders { hs_sInfo_ := { numErrors := 1 }
                  trace := [Effect.asyncReadUntil, Effect.fire .onError []] } =
      .ok { hs_sInfo_ := { numErrors := 1 }
            trace := [Effect.asyncReadUntil, Effect.fire .onError [],
              Effect.asyncReadUntil] } :=
  ⟨rfl, rfl, rfl, rfl⟩

/-! ## The completion of the reply write -/

theorem on_reply_of_pos (err : error_code) (xfer : Nat) (r : HttpRequest)
    (hcur : 0 < r.hs_sInfo_.current) :
    on_reply err xfer r = .ok
      { r with
        hs_sInfo_ :=
          { r.hs_sInfo_ with
            numErrors := if err.value ≠ 0 then r.hs_sInfo_.numErrors + 1
              else r.hs_sInfo_.numErrors
            current := r.hs_sInfo_.current - 1 }
        trace := r.trace ++
          [Effect.gauge (int32_cast (r.hs_sInfo_.current - 1)), Effect.socketClose]
        socketOpen := false
        onError_ := [] } := by
  unfold on_reply
  by_cases herr : err.value = 0
  · simp [herr, hcur]
  · simp [herr, hcur]

theorem on_reply_of_nonpos (err : error_code) (xfer : Nat) (r : HttpRequest)
    (hcur : ¬ 0 < r.hs_sInfo_.current) :
    on_reply err xfer r = .error (.assertion "hs_->sInfo_.current > 0") := by
  unfold on_reply
  by_cases herr : err.value = 0
  · simp [herr, hcur]
  · simp [herr, hcur]

/-- C14 (amended): when the reply write completes with a transport error (the assertion
`current > 0` holding), `on_reply` does not take the error outcome: it adds 1 to the error
counter, takes 1 from `current`, publishes the gauge, closes the socket and disconnects
`onError_` without invoking it, so that no signal at all is invoked. -/
theorem on_reply_write_error (err : error_code) (xfer : Nat) (r : HttpRequest)
    (herr : err.value ≠ 0) (hcur : 0 < r.hs_sInfo_.current) :
    ∃ r', on_reply err xfer r = .ok r' ∧
      r'.hs_sInfo_.numErrors = r.hs_sInfo_.numErrors + 1 ∧
      r'.hs_sInfo_.current = r.hs_sInfo_.current - 1 ∧
      r'.trace = r.trace ++
        [Effect.gauge (int32_cast (r.hs_sInfo_.current - 1)), Effect.socketClose] ∧
      r'.onError_ = [] ∧ r'.socketOpen = false := by
  refine ⟨_, on_reply_of_pos err xfer r hcur, ?_, rfl, rfl, rfl, rfl⟩
  simp [herr]

theorem on_reply_write_error_witness :
    ∃ r', on_reply ⟨32, .system⟩ 0 { onError_ := [8], hs_sInfo_ := { current := 1 } } = .ok r' ∧
      r'.hs_sInfo_.numErrors = 0 + 1 ∧
      r'.hs_sInfo_.current = 1 - 1 ∧
      r'.trace = [] ++ [Effect.gauge (int32_cast (1 - 1)), Effect.socketClose] ∧
      r'.onError_ = [] ∧ r'.socketOpen = false :=
  on_reply_write_error ⟨32, .system⟩ 0 { onError_ := [8], hs_sInfo_ := { current := 1 } }
    (by decide) (by decide)

/-- C14 fails as stated: the reply write of a request with the error slot 8 connected
completes with the system error 32 (broken pipe); `on_reply` counts the error, and the slot
is disconnected without having been invoked. -/
theorem on_reply_write_error_counterexample :
    ∃ r', on_reply ⟨32, .system⟩ 0 { onError_ := [8], hs_sInfo_ := { current := 1 } } = .ok r' ∧
      r'.trace = [Effect.gauge 0, Effect.socketClose] ∧
      Effect.fire .onError [8] ∉ r'.trace ∧
      r'.onError_ = [] ∧ r'.hs_sInfo_.numErrors = 1 :=
  ⟨_, rfl, by decide, by decide, by decide, by decide⟩

/-! ## `handleAccept` -/

theorem handleAccept_success (e : error_code) (req : Nat) (s : HttpServer) (r : HttpRequest)
    (he : e.value = 0) (hreq : s.requests[req]? = some r) (hfresh : r.headerData_ = []) :
    handleAccept e req s = .ok
      { s with
        sInfo_ := { s.sInfo_ with
                    numRequests := s.sInfo_.numRequests + 1
                    current := s.sInfo_.current + 1 }
        requests :=
          s.requests.set req
            { r with
              hs_sInfo_ := { s.sInfo_ with
                             numRequests := s.sInfo_.numRequests + 1
                             current := s.sInfo_.current + 1 }
              trace := r.trace ++ [Effect.asyncReadUntil] } ++
          [{ hs_sInfo_ := { s.sInfo_ with
                            numRequests := s.sInfo_.numRequests + 1
                            current := s.sInfo_.current + 1 }
             socketOpen := false }]
        log := s.log ++ [ServerEffect.gauge (int32_cast (s.sInfo_.current + 1)),
          ServerEffect.onRequest req, ServerEffect.readHeaders req,
          ServerEffect.asyncAccept s.requests.length] } := by
  simp [handleAccept, withRequest, readHeaders, acceptOne, newHttpRequest, he, hreq, hfresh]

theorem handleAccept_failure (e : error_code) (req : Nat) (s : HttpServer)
    (he : e.value ≠ 0) :
    handleAccept e req s = .ok
      { s with
        sInfo_ := { s.sInfo_ with
                    numRequests := s.sInfo_.numRequests + 1
                    numErrors := s.sInfo_.numErrors + 1 }
        log := s.log ++ [ServerEffect.timerExpiresFromNow 1, ServerEffect.timerAsyncWait] } := by
  simp [handleAccept, he]

/-- C15 (amended): the counter transition of `handleAccept` (run for a request that has read
no headers yet) is: on a successful accept `numRequests` (total requests) and `current`
(active connections) each go up by exactly 1 and `numErrors` (accept errors) and `httpErrors`
are unchanged; on a failed accept `numErrors` and `numRequests` each go up by exactly 1 and
`current` and `httpErrors` are unchanged: `numRequests` counts every completed accept. -/
theorem handleAccept_counters (e : error_code) (req : Nat) (s : HttpServer) (r : HttpRequest)
    (hreq : s.requests[req]? = some r) (hfresh : r.headerData_ = []) :
    ∃ s', handleAccept e req s = .ok s' ∧
      s'.sInfo_.numRequests = s.sInfo_.numRequests + 1 ∧
      s'.sInfo_.current = (if e.value = 0 then s.sInfo_.current + 1 else s.sInfo_.current) ∧
      s'.sInfo_.numErrors =
        (if e.value = 0 then s.sInfo_.numErrors else s.sInfo_.numErrors + 1) ∧
      s'.sInfo_.httpErrors = s.sInfo_.httpErrors ∧
      s'.sInfo_.port = s.sInfo_.port := by
  by_cases he : e.value = 0
  · refine ⟨_, handleAccept_success e req s r he hreq hfresh, ?_⟩
    simp [he]
  · refine ⟨_, handleAccept_failure e req s he, ?_⟩
    simp [he]

theorem handleAccept_counters_witness :
    (∃ s', handleAccept errc_success 0 (newHttpServer 8111) = .ok s' ∧
      s'.sInfo_.numRequests = 0 + 1 ∧
      s'.sInfo_.current = (if errc_success.value = 0 then 0 + 1 else 0) ∧
      s'.sInfo_.numErrors = (if errc_success.value = 0 then 0 else 0 + 1) ∧
      s'.sInfo_.httpErrors = 0 ∧ s'.sInfo_.port = 8111) ∧
    (∃ s', handleAccept ⟨24, .system⟩ 0 (newHttpServer 8111) = .ok s' ∧
      s'.sInfo_.numRequests = 0 + 1 ∧
      s'.sInfo_.current = (if (⟨24, .system⟩ : error_code).value = 0 then 0 + 1 else 0) ∧
      s'.sInfo_.numErrors = (if (⟨24, .system⟩ : error_code).value = 0 then 0 else 0 + 1) ∧
      s'.sInfo_.httpErrors = 0 ∧ s'.sInfo_.port = 8111) :=
  ⟨handleAccept_counters errc_success 0 (newHttpServer 8111) _ rfl rfl,
    handleAccept_counters ⟨24, .system⟩ 0 (newHttpServer 8111) _ rfl rfl⟩

/-- C15 fails as stated: the accept on a listener just started fails with the system error 24
(too many open files); `numErrors` goes from 0 to 1, and so does `numRequests`, which
`handleAccept` increments before it looks at the error code. -/
theorem handleAccept_counters_counterexample :
    (newHttpServer 8111).sInfo_.numRequests = 0 ∧
    ∃ s', handleAccept ⟨24, .system⟩ 0 (newHttpServer 8111) = .ok s' ∧
      s'.sInfo_.numErrors = 1 ∧ s'.sInfo_.numRequests = 1 ∧
      s'.sInfo_.numRequests ≠ (newHttpServer 8111).sInfo_.numRequests :=
  ⟨by decide, _, rfl, by decide, by decide, by decide⟩

/-- C16: for every completion of the accept of a request that has read no headers yet,
`handleAccept` leaves exactly one re-arm of the accept loop behind.  On success it does, in
this order: publish the gauge, invoke the hook `onRequest_` with the request, call
`readHeaders` on it (which queues its `async_read_until`), and `acceptOne`, which makes one new
request and queues one `async_accept` for it.  On failure the hook and `readHeaders` are not
invoked and no accept is queued: the timer is set to 1 second and one `async_wait` is queued,
whose expiry runs `acceptOne` once. -/
theorem handleAccept_rearms_once (e : error_code) (req : Nat) (s : HttpServer)
    (r : HttpRequest) (hreq : s.requests[req]? = some r) (hfresh : r.headerData_ = []) :
    ∃ s', handleAccept e req s = .ok s' ∧
      (if e.value = 0 then
        s'.log = s.log ++ [ServerEffect.gauge (int32_cast (s.sInfo_.current + 1)),
          ServerEffect.onRequest req, ServerEffect.readHeaders req,
          ServerEffect.asyncAccept s.requests.length] ∧
        s'.requests.length = s.requests.length + 1 ∧
        (s'.requests[req]?).map (fun q => q.trace) = some (r.trace ++ [Effect.asyncReadUntil])
      else
        s'.log = s.log ++ [ServerEffect.timerExpiresFromNow 1, ServerEffect.timerAsyncWait] ∧
        s'.requests = s.requests ∧
        ∃ s'', deliver .timerExpired s' = .ok s'' ∧
          s''.log = s'.log ++ [ServerEffect.asyncAccept s.requests.length] ∧
          s''.requests.length = s.requests.length + 1) := by
  have hlt : req < s.requests.length := by
    rcases Nat.lt_or_ge req s.requests.length with h | h
    · exact h
    · rw [List.getElem?_eq_none h] at hreq
      cases hreq
  by_cases he : e.value = 0
  · refine ⟨_, handleAccept_success e req s r he hreq hfresh, ?_⟩
    rw [if_pos he]
    refine ⟨rfl, by simp, ?_⟩
    simp [List.getElem?_append_left, hlt]
  · refine ⟨_, handleAccept_failure e req s he, ?_⟩
    rw [if_neg he]
    refine ⟨rfl, rfl, _, rfl, ?_, ?_⟩
    · simp [acceptOne]
    · simp [acceptOne]

theorem handleAccept_rearms_once_witness :
    (∃ s', handleAccept errc_success 0 (newHttpServer 8111) = .ok s' ∧
      s'.log = [ServerEffect.asyncAccept 0, ServerEffect.gauge 1, ServerEffect.onRequest 0,
        ServerEffect.readHeaders 0, ServerEffect.asyncAccept 1]) ∧
    (∃ s', handleAccept ⟨24, .system⟩ 0 (newHttpServer 8111) = .ok s' ∧
      s'.log = [ServerEffect.asyncAccept 0, ServerEffect.timerExpiresFromNow 1,
        ServerEffect.timerAsyncWait]) :=
  ⟨(handleAccept_rearms_once errc_success 0 (newHttpServer 8111) _ rfl rfl).elim
      (fun s' h => ⟨s', h.1, h.2.1⟩),
    (handleAccept_rearms_once ⟨24, .system⟩ 0 (newHttpServer 8111) _ rfl rfl).elim
      (fun s' h => ⟨s', h.1, h.2.1⟩)⟩

/-! ## `parseMethod` on a request line with several spaces -/

/-- C18 (amended): for every request line `m`, space, `rest` with no space in `m`,
`parseMethod` sets `method_` to `m`, the text before the first space; and whenever the trimmed
remainder `t` is `u`, space, `w` with no space in `u`, it sets `url_` to `u`, the part of `t`
before the first space of `t`, and `version_` to `w`, all that follows that first space. -/
theorem parseMethod_splits_at_first_space (r : HttpRequest) (m rest : Bytes)
    (hm : ' ' ∉ m) :
    (parseMethod r (m ++ ' ' :: rest)).method_ = m ∧
    ∀ u w : Bytes, trim rest = u ++ ' ' :: w → ' ' ∉ u →
      (parseMethod r (m ++ ' ' :: rest)).url_ = u ∧
      (parseMethod r (m ++ ' ' :: rest)).version_ = w := by
  refine ⟨?_, ?_⟩
  · simp only [parseMethod, split_append_cons m rest ' ' hm]
  · intro u w ht hu
    simp only [parseMethod, split_append_cons m rest ' ' hm, ht, split_append_cons u w ' ' hu]
    exact ⟨trivial, trivial⟩

theorem parseMethod_splits_at_first_space_witness :
    (parseMethod {} ("GET".toList ++ ' ' :: "/a b HTTP/1.1".toList)).method_ = "GET".toList ∧
    (parseMethod {} ("GET".toList ++ ' ' :: "/a b HTTP/1.1".toList)).url_ = "/a".toList ∧
    (parseMethod {} ("GET".toList ++ ' ' :: "/a b HTTP/1.1".toList)).version_ =
      "b HTTP/1.1".toList :=
  ⟨(parseMethod_splits_at_first_space {} "GET".toList "/a b HTTP/1.1".toList (by decide)).1,
    (parseMethod_splits_at_first_space {} "GET".toList "/a b HTTP/1.1".toList (by decide)).2
      "/a".toList "b HTTP/1.1".toList (by decide) (by decide)⟩

/-- C18 fails as stated: on the request line `GET /a b HTTP/1.1` the remainder is split at
its first space, not its last: `url_` is `/a` and `version_` is `b HTTP/1.1`, not `/a b` and
`HTTP/1.1`. -/
theorem parseMethod_last_space_counterexample :
    (parseMethod {} "GET /a b HTTP/1.1".toList).method_ = "GET".toList ∧
    (parseMethod {} "GET /a b HTTP/1.1".toList).url_ = "/a".toList ∧
    (parseMethod {} "GET /a b HTTP/1.1".toList).version_ = "b HTTP/1.1".toList ∧
    (parseMethod {} "GET /a b HTTP/1.1".toList).url_ ≠ "/a b".toList ∧
    (parseMethod {} "GET /a b HTTP/1.1".toList).version_ ≠ "HTTP/1.1".toList := by
  decide

/-! ## The scan loop on the shortest buffer -/

/-- C20, the failing buffer: the four bytes CR LF CR LF contain the terminator and have
length `n = 4`.  The loop bound `n-2` is 2 and `p` starts at 3, so `p != n-2` holds from the
start on: the iteration at `p = 3` reads indices 2, 3 and 4 and cuts the substring `0 .. 2`,
the one at `p = 4` reads index 4, and the one at `p = 5` reads index 5, outside the buffer. -/
theorem scanHeaders_crlfcrlf_out_of_bounds :
    sizeMinus2 crlfcrlf.length = 2 ∧
    scanBody crlfcrlf 3 true 0 {} = .ok (.next false 4 (parseMethod {} ['\r', '\n'])) ∧
    scanBody crlfcrlf 4 false 4 (parseMethod {} ['\r', '\n']) =
      .ok (.next false 4 (parseMethod {} ['\r', '\n'])) ∧
    charAt crlfcrlf 5 = .error .outOfBounds ∧
    scanHeaders 4 { header_ := crlfcrlf } = .error .outOfBounds :=
  ⟨by decide, rfl, rfl, rfl, rfl⟩

/-! ## The scan touches the parsed fields only -/

theorem scanBody_frame_next (d : Bytes) (p b b' : Nat) (first f' : Bool) (r r' : HttpRequest)
    (h : scanBody d p first b r = .ok (.next f' b' r')) : scanFrame r r' := by
  unfold scanBody at h
  simp only [bind, Except.bind, pure, Except.pure] at h
  repeat' split at h
  all_goals first
    | (cases h; done)
    | (cases h; exact scanFrame_refl _)

theorem scanBody_frame_done (d : Bytes) (p b : Nat) (first : Bool) (r r' : HttpRequest)
    (h : scanBody d p first b r = .ok (.done r')) : scanFrame r r' := by
  unfold scanBody at h
  simp only [bind, Except.bind, pure, Except.pure] at h
  repeat' split at h
  all_goals first
    | (cases h; done)
    | (cases h; exact scanFrame_refl _)

theorem scanLoop_frame (d : Bytes) :
    ∀ (fuel p b : Nat) (first : Bool) (r r' : HttpRequest),
      scanLoop d fuel p first b r = .ok r' → scanFrame r r' := by
  intro fuel
  induction fuel with
  | zero => intro p b first r r' h; cases h
  | succ fuel ih =>
    intro p b first r r' h
    rw [scanLoop] at h
    split at h
    · cases h; exact scanFrame_refl r
    · split at h
      · cases h
      · rename_i r1 hbody
        cases h
        exact scanBody_frame_done d p b first r _ hbody
      · rename_i f1 b1 r1 hbody
        exact scanFrame_trans (scanBody_frame_next d p b _ first _ r _ hbody) (ih _ _ _ _ _ h)

/-! ## After the error outcome -/

theorem scanHeaders_frame (xfer : Nat) (r r2 : HttpRequest) (h : scanHeaders xfer r = .ok r2) :
    r2.onHeader_ = r.onHeader_ ∧ r2.onBody_ = r.onBody_ ∧ r2.onError_ = r.onError_ ∧
      r2.trace = r.trace := by
  obtain ⟨_, _, _, _, _, _, _, f8, f9, f10, f11⟩ := scanLoop_frame _ _ _ _ _ _ _ h
  exact ⟨f8, f9, f10, f11⟩

theorem runStep_disconnected (st : RequestStep) (r r' : HttpRequest) (hq : disconnected r)
    (h : runStep st r = .ok r') :
    disconnected r' ∧ ∃ es, r'.trace = r.trace ++ es ∧ callsNoSlot es := by
  obtain ⟨q1, q2, q3⟩ := hq
  have hfire : ∀ sig, callsNoSlot [Effect.fire sig []] := by
    intro sig sig' slots hmem
    simp only [List.mem_singleton] at hmem
    cases hmem
    rfl
  cases st with
  | on_header err xfer =>
    simp only [runStep, on_header] at h
    split at h
    · cases h
      exact ⟨⟨rfl, rfl, rfl⟩, _, by simp [error, q3], hfire .onError⟩
    · split at h
      · cases h
      · rename_i r2 hscan
        obtain ⟨f1, f2, f3, f4⟩ := scanHeaders_frame xfer r r2 hscan
        split at h
        · cases h
          exact ⟨⟨rfl, rfl, rfl⟩, _, by simp [error, f3, f4, q3], hfire .onError⟩
        · cases h
          exact ⟨⟨rfl, by simp [f2, q2], by simp [f3, q3]⟩, _, by simp [f1, f4, q1],
            hfire .onHeader⟩
  | on_body err xfer =>
    simp only [runStep, on_body] at h
    split at h
    · cases h
      exact ⟨⟨rfl, rfl, rfl⟩, _, by simp [error, q3], hfire .onError⟩
    · cases h
      exact ⟨⟨q1, rfl, rfl⟩, _, by simp [q2], hfire .onBody⟩
  | error =>
    simp only [runStep] at h
    cases h
    exact ⟨⟨rfl, rfl, rfl⟩, _, by simp [error, q3], hfire .onError⟩
  | on_reply err xfer =>
    simp only [runStep] at h
    by_cases hcur : 0 < r.hs_sInfo_.current
    · rw [on_reply_of_pos err xfer r hcur] at h
      cases h
      refine ⟨⟨q1, q2, rfl⟩, [_, _], rfl, ?_⟩
      intro sig slots hmem
      simp at hmem
    · rw [on_reply_of_nonpos err xfer r hcur] at h
      cases h

theorem runSteps_disconnected (steps : List RequestStep) :
    ∀ (r r' : HttpRequest), disconnected r → runSteps steps r = .ok r' →
      ∃ es, r'.trace = r.trace ++ es ∧ callsNoSlot es := by
  induction steps with
  | nil =>
    intro r r' _ h
    cases h
    exact ⟨[], by simp, fun _ _ hmem => by cases hmem⟩
  | cons st rest ih =>
    intro r r' hq h
    rw [runSteps] at h
    split at h
    · cases h
    · rename_i r1 hstep
      obtain ⟨hq1, es1, ht1, hs1⟩ := runStep_disconnected st r r1 hq hstep
      obtain ⟨es2, ht2, hs2⟩ := ih r1 r' hq1 h
      refine ⟨es1 ++ es2, by rw [ht2, ht1, List.append_assoc], ?_⟩
      intro sig slots hmem
      rcases List.mem_append.1 hmem with hm | hm
      · exact hs1 sig slots hm
      · exact hs2 sig slots hm

/-- C17: `error()` adds exactly 1 to the error counter (and leaves the other counters), invokes
`onError_` once, which calls each slot connected to it once, and leaves `onHeader_`, `onBody_`
and `onError_` without slots.  Consequently, whatever steps run later on the request
(`on_header`, `on_body`, `error`, `on_reply`, in any number and order), they call no slot: every
signal invocation after the error finds no slot connected. -/
theorem error_is_final (r : HttpRequest) :
    (error r).hs_sInfo_ = { r.hs_sInfo_ with numErrors := r.hs_sInfo_.numErrors + 1 } ∧
    (error r).trace = r.trace ++ [Effect.fire .onError r.onError_] ∧
    (error r).onHeader_ = [] ∧ (error r).onBody_ = [] ∧ (error r).onError_ = [] ∧
    ∀ (steps : List RequestStep) (r' : HttpRequest), runSteps steps (error r) = .ok r' →
      ∃ later, r'.trace = (error r).trace ++ later ∧ callsNoSlot later :=
  ⟨rfl, rfl, rfl, rfl, rfl,
    fun steps r' h => runSteps_disconnected steps (error r) r' ⟨rfl, rfl, rfl⟩ h⟩

theorem error_is_final_witness :
    ∃ later,
      [Effect.fire .onError [3], Effect.fire .onBody [], Effect.fire .onError [],
        Effect.gauge 0, Effect.socketClose] =
        (error { onHeader_ := [1], onBody_ := [2], onError_ := [3],
                 hs_sInfo_ := { current := 1 } }).trace ++ later ∧
      callsNoSlot later :=
  (error_is_final { onHeader_ := [1], onBody_ := [2], onError_ := [3],
                    hs_sInfo_ := { current := 1 } }).2.2.2.2.2
    [.on_body errc_success 0, .error, .on_reply errc_success 0]
    { hs_sInfo_ := { numErrors := 2, current := 0 }, socketOpen := false,
      trace := [Effect.fire .onError [3], Effect.fire .onBody [], Effect.fire .onError [],
        Effect.gauge 0, Effect.socketClose] }
    rfl

/-! ## The count of active connections -/

theorem withRequest_ok (s s' : HttpServer) (req : Nat)
    (f : HttpRequest → Except Fault HttpRequest) (h : withRequest s req f = .ok s') :
    ∃ r r', s.requests[req]? = some r ∧ f { r with hs_sInfo_ := s.sInfo_ } = .ok r' ∧
      s' = { s with sInfo_ := r'.hs_sInfo_, requests := s.requests.set req r' } := by
  unfold withRequest at h
  split at h
  · cases h
  · rename_i r hr
    split at h
    · cases h
    · rename_i r' hf
      cases h
      exact ⟨r, r', hr, hf, rfl⟩

theorem deliver_countsLive (s s' : HttpServer) (live : List Nat) (ev : Event)
    (hinv : countsLive s live) (hadm : admissible ev live) (h : deliver ev s = .ok s') :
    countsLive s' (liveAfter ev s live) := by
  obtain ⟨hcur, hold⟩ := hinv
  cases ev with
  | accepted e =>
    simp only [deliver, handleAccept] at h
    by_cases he : e.value = 0
    · rw [if_pos he] at h
      split at h
      · cases h
      · rename_i s4 hw
        cases h
        obtain ⟨r, r', hr, hf, rfl⟩ := withRequest_ok _ _ _ _ hw
        have hr' : s.requests[s.requests.length - 1]? = some r := hr
        have hn : 1 ≤ s.requests.length := by
          rcases Nat.lt_or_ge 0 s.requests.length with hlt | hge
          · exact hlt
          · rw [List.getElem?_eq_none (by omega)] at hr'
            cases hr'
        have hstats : r'.hs_sInfo_.current = s.sInfo_.current + 1 := by
          unfold readHeaders at hf
          split at hf
          · cases hf
          · cases hf
            rfl
        refine ⟨?_, ?_⟩
        · simp only [liveAfter, if_pos he, acceptOne, List.length_cons]
          rw [hstats, hcur]
          push_cast
          rfl
        · intro req hreq
          simp only [liveAfter, if_pos he, List.mem_cons] at hreq
          simp only [acceptOne, List.length_append, List.length_set, List.length_singleton]
          rcases hreq with rfl | hreq
          · omega
          · have := hold req hreq
            omega
    · rw [if_neg he] at h
      cases h
      refine ⟨?_, ?_⟩
      · simp only [liveAfter, if_neg he]
        exact hcur
      · intro req hreq
        simp only [liveAfter, if_neg he] at hreq
        exact hold req hreq
  | timerExpired =>
    simp only [deliver] at h
    cases h
    refine ⟨hcur, ?_⟩
    intro req hreq
    have := hold req hreq
    simp only [acceptOne, List.length_append, List.length_singleton]
    omega
  | requestError req0 =>
    simp only [deliver] at h
    obtain ⟨r, r', _, hf, rfl⟩ := withRequest_ok _ _ _ _ h
    cases hf
    refine ⟨hcur, ?_⟩
    intro req hreq
    have := hold req hreq
    simp only [List.length_set]
    exact this
  | replyWritten req0 err xfer =>
    simp only [deliver] at h
    obtain ⟨r, r', _, hf, rfl⟩ := withRequest_ok _ _ _ _ h
    have hmem : req0 ∈ live := hadm
    have hpos : 0 < live.length := List.length_pos_of_mem hmem
    have hcur' : 0 < ({ r with hs_sInfo_ := s.sInfo_ } : HttpRequest).hs_sInfo_.current := by
      show 0 < s.sInfo_.current
      rw [hcur]
      exact_mod_cast hpos
    rw [on_reply_of_pos err xfer _ hcur'] at hf
    cases hf
    refine ⟨?_, ?_⟩
    · show s.sInfo_.current - 1 = ((live.erase req0).length : Int)
      rw [List.length_erase_of_mem hmem, hcur]
      omega
    · intro req hreq
      have := hold req (List.mem_of_mem_erase hreq)
      simp only [liveAfter, List.length_set]
      exact this

theorem reachable_countsLive (port : Int) (s : HttpServer) (live : List Nat)
    (h : Reachable port s live) : countsLive s live := by
  induction h with
  | start =>
    refine ⟨?_, fun req hreq => by cases hreq⟩
    unfold newHttpServer
    split <;> rfl
  | step s s' live ev _ hadm hdel ih => exact deliver_countsLive s s' live ev ih hadm hdel

/-- When every accepted connection has completed by its reply write, `current` is back at
the 0 it had at the start of the listener. -/
theorem current_zero_when_all_replied (port : Int) (s : HttpServer)
    (h : Reachable port s []) : s.sInfo_.current = 0 :=
  (reachable_countsLive port s [] h).1

/-- C12: in every state reachable from the start of the listener by completed accepts
(successful or failed), expiries of the retry timer, error outcomes of requests and completions
of reply writes, where a reply write completes only for a connection accepted before and only
once per connection, `current` is not negative; and for every connection whose reply write can
still complete, `current > 0` holds, so that `on_reply` passes its assertion, returns, and
leaves `current` not negative. -/
theorem current_never_negative (port : Int) (s : HttpServer) (live : List Nat)
    (h : Reachable port s live) :
    0 ≤ s.sInfo_.current ∧
      ∀ req ∈ live, ∀ (err : error_code) (xfer : Nat),
        0 < s.sInfo_.current ∧
          ∃ s', deliver (.replyWritten req err xfer) s = .ok s' ∧ 0 ≤ s'.sInfo_.current := by
  obtain ⟨hcur, hold⟩ := reachable_countsLive port s live h
  refine ⟨by rw [hcur]; exact Int.natCast_nonneg _, ?_⟩
  intro req hreq err xfer
  have hpos : 0 < live.length := List.length_pos_of_mem hreq
  have hcpos : 0 < s.sInfo_.current := by
    rw [hcur]; exact_mod_cast hpos
  refine ⟨hcpos, ?_⟩
  have hlt : req < s.requests.length := by
    have := hold req hreq
    omega
  have key : ∃ s', deliver (.replyWritten req err xfer) s = .ok s' ∧
      s'.sInfo_.current = s.sInfo_.current - 1 := by
    simp only [deliver, withRequest, List.getElem?_eq_getElem hlt]
    rw [on_reply_of_pos err xfer _ hcpos]
    exact ⟨_, rfl, rfl⟩
  obtain ⟨s', hs', hc'⟩ := key
  exact ⟨s', hs', by rw [hc']; omega⟩

theorem current_never_negative_witness :
    ∃ s1, deliver (.accepted errc_success) (newHttpServer 8111) = .ok s1 ∧
      0 ≤ s1.sInfo_.current ∧
      ∀ req ∈ [0], ∀ (err : error_code) (xfer : Nat),
        0 < s1.sInfo_.current ∧
          ∃ s', deliver (.replyWritten req err xfer) s1 = .ok s' ∧ 0 ≤ s'.sInfo_.current :=
  ⟨_, rfl,
    current_never_negative 8111 _ [0]
      (Reachable.step (newHttpServer 8111) _ [] (.accepted errc_success) Reachable.start
        trivial rfl)⟩

/-- C11, the failing sequence (`N = 1`): a listener is started, one connection is accepted
(`current` goes from 0 to 1), and its header read completes with the system error 104, so that
`on_header` takes the error outcome.  `error()` counts the error, invokes `onError_` and
disconnects the signals, and does not touch `current`: the connection has completed and
`current` is still 1, not the 0 it was before.  Had the connection completed by its reply
write, `on_reply` would have brought `current` back to 0. -/
theorem accepted_then_errored_stays_counted :
    (newHttpServer 8111).sInfo_.current = 0 ∧
    ∃ s1 s2 s3, deliver (.accepted errc_success) (newHttpServer 8111) = .ok s1 ∧
      s1.sInfo_.current = 1 ∧
      withRequest s1 0 (on_header ⟨104, .system⟩ 0) = .ok s2 ∧
      deliver (.requestError 0) s1 = .ok s2 ∧
      s2.sInfo_.numErrors = 1 ∧ s2.sInfo_.current = 1 ∧
      deliver (.replyWritten 0 errc_success 0) s1 = .ok s3 ∧ s3.sInfo_.current = 0 :=
  ⟨by decide, _, _, _, rfl, by decide, rfl, rfl, by decide, by decide, rfl, by decide⟩

/-! ## Continuation lines -/

theorem scansAsLine_of_no_lf (l : Bytes) (h : '\n' ∉ l) : scansAsLine l := by
  intro d pre suf first b r fuel hn hd hsuf
  have := scanLoop_line d hn first r pre l suf fuel pre.length b hd hsuf (le_refl _)
    (by omega) h
  rw [← this]
  congr 1
  omega

theorem scanBody_continuation (d : Bytes) (p b : Nat) (first : Bool) (r : HttpRequest)
    (hcp : charAt d p = .ok '\n') (hcm : charAt d (p - 1) = .ok '\r')
    (hc1 : charAt d (p + 1) = .ok ' ') :
    scanBody d p first b r = .ok (.next first b r) := by
  rw [scanBody, hcp]
  simp [bind, Except.bind, hcm, hc1, pure, Except.pure]

/-- The CR LF before a line that begins with a space is no line boundary: the loop goes on
from the text before it into the continuation, and the two scan as one line. -/
theorem scansAsLine_folded (s1 s2 : Bytes) (h1 : '\n' ∉ s1) (h2 : '\n' ∉ s2) :
    scansAsLine (s1 ++ '\r' :: '\n' :: ' ' :: s2) := by
  intro d pre suf first b r fuel hn hd hsuf
  have hd1 : d = pre ++ (s1 ++ '\r' :: '\n' :: (' ' :: (s2 ++ '\r' :: '\n' :: suf))) := by
    rw [hd]; simp
  have hd2 : d = (pre ++ (s1 ++ ['\r', '\n'])) ++ ((' ' :: s2) ++ '\r' :: '\n' :: suf) := by
    rw [hd]; simp
  have hlen : d.length = pre.length + s1.length + 3 + s2.length + 2 + suf.length := by
    rw [hd]; simp; omega
  -- up to the LF before the continuation
  have hA := scanLoop_line d hn first r pre s1 (' ' :: (s2 ++ '\r' :: '\n' :: suf))
    (fuel + (s2.length + 2) + 1) pre.length b hd1 (by simp) (le_refl _) (by omega) h1
  -- the LF before the continuation
  have hp : pre.length + s1.length + 1 ≠ sizeMinus2 d.length := by
    rw [sizeMinus2_eq _ (by omega) hn]; omega
  have hmod : (pre.length + s1.length + 1 + 1) % 2 ^ 64 = pre.length + s1.length + 1 + 1 :=
    Nat.mod_eq_of_lt (by omega)
  have hcp : charAt d (pre.length + s1.length + 1) = .ok '\n' := by
    have := charAt_append_cons (pre ++ s1 ++ ['\r']) (' ' :: (s2 ++ '\r' :: '\n' :: suf)) '\n'
      (pre.length + s1.length + 1) (by simp; omega)
    rw [hd]; simpa using this
  have hcm : charAt d (pre.length + s1.length + 1 - 1) = .ok '\r' := by
    have := charAt_append_cons (pre ++ s1) ('\n' :: ' ' :: (s2 ++ '\r' :: '\n' :: suf)) '\r'
      (pre.length + s1.length + 1 - 1) (by simp)
    rw [hd]; simpa using this
  have hc1 : charAt d (pre.length + s1.length + 1 + 1) = .ok ' ' := by
    have := charAt_append_cons (pre ++ s1 ++ ['\r', '\n']) (s2 ++ '\r' :: '\n' :: suf) ' '
      (pre.length + s1.length + 1 + 1) (by simp; omega)
    rw [hd]; simpa using this
  have hB : scanLoop d (fuel + (s2.length + 2) + 1) (pre.length + s1.length + 1) first b r =
      scanLoop d (fuel + (s2.length + 2)) (pre.length + s1.length + 1 + 1) first b r := by
    rw [scanLoop, if_neg hp, scanBody_continuation d _ b first r hcp hcm hc1]
    show scanLoop d (fuel + (s2.length + 2)) ((pre.length + s1.length + 1 + 1) % 2 ^ 64)
      first b r = _
    rw [hmod]
  -- the continuation line
  have hC := scanLoop_line d hn first r (pre ++ (s1 ++ ['\r', '\n'])) (' ' :: s2) suf fuel
    (pre.length + s1.length + 1 + 1) b hd2 hsuf (by simp; omega) (by simp; omega)
    (by simp [h2])
  have e1 : fuel + ((s1 ++ '\r' :: '\n' :: ' ' :: s2).length + 1) =
      fuel + (s2.length + 2) + 1 + (pre.length + s1.length + 1 - pre.length) := by
    simp; omega
  have e2 : fuel + (s2.length + 2) =
      fuel + ((pre ++ (s1 ++ ['\r', '\n'])).length + (' ' :: s2).length + 1 -
        (pre.length + s1.length + 1 + 1)) := by
    simp; omega
  have e3 : (pre ++ (s1 ++ ['\r', '\n'])).length + (' ' :: s2).length + 1 =
      pre.length + (s1 ++ '\r' :: '\n' :: ' ' :: s2).length + 1 := by
    simp; omega
  rw [e1, hA, hB, e2, hC, e3]

theorem logicalLine_of_goodLine (l : Bytes) (h : goodLine l) : logicalLine l := by
  obtain ⟨h1, h2, h3, h4⟩ := h
  refine ⟨h1, h2, ?_, scansAsLine_of_no_lf l h4⟩
  intro hh
  cases l with
  | nil => exact h1 rfl
  | cons c t =>
    simp only [List.head?_cons, Option.some.injEq] at hh
    exact h3 (by simp [hh])

theorem logicalLine_foldedHeader (name v1 v2 : Bytes) (hn1 : '\r' ∉ name) (hn2 : '\n' ∉ name)
    (hn3 : name.head? ≠ some ' ') (hv1 : '\n' ∉ v1) (hv2 : '\n' ∉ v2) :
    logicalLine (foldedHeader name v1 v2) := by
  have hform : foldedHeader name v1 v2 =
      (name ++ ':' :: ' ' :: v1) ++ '\r' :: '\n' :: ' ' :: v2 := by
    simp [foldedHeader]
  refine ⟨by simp [foldedHeader], ?_, ?_, ?_⟩
  · cases name with
    | nil => simp [foldedHeader]
    | cons c t => simpa [foldedHeader] using hn3
  · cases name with
    | nil => simp [foldedHeader]
    | cons c t =>
      simp only [foldedHeader, List.cons_append, List.head?_cons, ne_eq, Option.some.injEq]
      intro hc
      exact hn1 (by simp [hc])
  · rw [hform]
    exact scansAsLine_folded _ _ (by simp [hn2, hv1]) hv2

/-- The scan from the start of the first of a non-empty list of logical header lines that ends
the header block: every logical line goes through `parseHeader` once, in order, and
`headerSize_` is set to the offset after the blank line. -/
theorem scanLoop_logicalLines (d : Bytes) (hn : d.length < 2 ^ 64) (rest : Bytes) :
    ∀ (lines : List Bytes) (pre : Bytes) (r : HttpRequest) (fuel : Nat),
      lines ≠ [] → (∀ l ∈ lines, logicalLine l) →
      d = pre ++ (unlines lines ++ '\r' :: '\n' :: rest) →
      scanLoop d (fuel + (unlines lines).length) pre.length false pre.length r =
        .ok { lines.foldl parseHeader r with
              headerSize_ := pre.length + (unlines lines).length + 2 } := by
  intro lines
  induction lines with
  | nil => intro pre r fuel h; exact absurd rfl h
  | cons l ls ih =>
    intro pre r fuel _ hgood hd
    have hl := hgood l (List.mem_cons_self _ _)
    cases ls with
    | nil =>
      have hd' : d = pre ++ (l ++ '\r' :: '\n' :: '\r' :: '\n' :: rest) := by
        rw [hd]; simp [unlines]
      have h1 := hl.2.2.2 d pre ('\r' :: '\n' :: rest) false pre.length r (fuel + 1) hn hd'
        (by simp)
      have h2 := scanLoop_last d hn false r pre l rest fuel (pre.length + l.length + 1)
        pre.length hd' rfl rfl
      have hf : fuel + (unlines [l]).length = fuel + 1 + (l.length + 1) := by
        simp [unlines]; omega
      rw [hf, h1, h2]
      simp [unlines]
      omega
    | cons l2 ls =>
      have hl2 := hgood l2 (by simp)
      obtain ⟨c1, l2', rfl⟩ : ∃ c1 l2', l2 = c1 :: l2' := by
        cases l2 with
        | nil => exact absurd rfl hl2.1
        | cons c t => exact ⟨c, t, rfl⟩
      have hsp : c1 ≠ ' ' := by
        intro h; apply hl2.2.1; simp [h]
      have hcr : c1 ≠ '\r' := by
        intro h; apply hl2.2.2.1; simp [h]
      have hd' : d = pre ++ (l ++ '\r' :: '\n' :: c1 ::
          (l2' ++ '\r' :: '\n' :: (unlines ls ++ '\r' :: '\n' :: rest))) := by
        rw [hd]; simp [unlines]
      have h1 := hl.2.2.2 d pre
        (c1 :: (l2' ++ '\r' :: '\n' :: (unlines ls ++ '\r' :: '\n' :: rest)))
        false pre.length r (fuel + (unlines ((c1 :: l2') :: ls)).length + 1) hn hd' (by simp)
      have h2 := scanLoop_boundary d hn false r pre l
        (l2' ++ '\r' :: '\n' :: (unlines ls ++ '\r' :: '\n' :: rest)) c1
        (fuel + (unlines ((c1 :: l2') :: ls)).length) (pre.length + l.length + 1)
        pre.length hd' rfl rfl (by simp; omega) hsp hcr
      have h3 := ih (pre ++ (l ++ ['\r', '\n'])) (parseHeader r l) fuel (by simp)
        (fun x hx => hgood x (List.mem_cons_of_mem _ hx)) (by rw [hd]; simp [unlines])
      have hf : fuel + (unlines (l :: (c1 :: l2') :: ls)).length =
          fuel + (unlines ((c1 :: l2') :: ls)).length + 1 + (l.length + 1) := by
        simp [unlines]; omega
      have hpl : (pre ++ (l ++ ['\r', '\n'])).length = pre.length + l.length + 1 + 1 := by
        simp; omega
      rw [hpl] at h3
      rw [hf, h1, h2]
      simp only [Bool.false_eq_true, if_false]
      rw [h3]
      simp [unlines]
      omega

/-- The buffer made of a request line, logical header lines and the blank line is scanned
into `parseMethod` of the request line followed by `parseHeader` of every logical line. -/
theorem scanHeaders_logicalLines (xfer : Nat) (r : HttpRequest) (rl : Bytes)
    (lines : List Bytes) (rest : Bytes)
    (hbuf : r.header_ = rl ++ '\r' :: '\n' :: (unlines lines ++ '\r' :: '\n' :: rest))
    (hrl : 2 ≤ rl.length) (hrlnl : '\n' ∉ rl) (hne : lines ≠ [])
    (hgood : ∀ l ∈ lines, logicalLine l) (hn : r.header_.length < 2 ^ 64) :
    scanHeaders xfer r = .ok
      { lines.foldl parseHeader
          (parseMethod { r with headerSize_ := xfer, headerData_ := r.header_, header_ := [] } rl)
        with headerSize_ := rl.length + 2 + (unlines lines).length + 2 } := by
  obtain ⟨l1, ls, rfl⟩ : ∃ l1 ls, lines = l1 :: ls := by
    cases lines with
    | nil => exact absurd rfl hne
    | cons a t => exact ⟨a, t, rfl⟩
  have hl1 := hgood l1 (List.mem_cons_self _ _)
  obtain ⟨c1, l1', rfl⟩ : ∃ c1 l1', l1 = c1 :: l1' := by
    cases l1 with
    | nil => exact absurd rfl hl1.1
    | cons c t => exact ⟨c, t, rfl⟩
  have hsp : c1 ≠ ' ' := by
    intro h; apply hl1.2.1; simp [h]
  have hcr : c1 ≠ '\r' := by
    intro h; apply hl1.2.2.1; simp [h]
  generalize hr1 : ({ r with headerSize_ := xfer, headerData_ := r.header_, header_ := [] } :
    HttpRequest) = r1
  have hd : r.header_ = [] ++ (rl ++ '\r' :: '\n' :: c1 ::
      (l1' ++ '\r' :: '\n' :: (unlines ls ++ '\r' :: '\n' :: rest))) := by
    rw [hbuf]; simp [unlines]
  have hlen : r.header_.length =
      rl.length + 2 + (unlines ((c1 :: l1') :: ls)).length + 2 + rest.length := by
    rw [hbuf]; simp; omega
  have h1 := scanLoop_line r.header_ hn true r1 [] rl
    (c1 :: (l1' ++ '\r' :: '\n' :: (unlines ls ++ '\r' :: '\n' :: rest)))
    (6 + rest.length + (unlines ((c1 :: l1') :: ls)).length + 1) 3 0 hd (by simp)
    (by simp) (by simp; omega) hrlnl
  have h2 := scanLoop_boundary r.header_ hn true r1 [] rl
    (l1' ++ '\r' :: '\n' :: (unlines ls ++ '\r' :: '\n' :: rest)) c1
    (6 + rest.length + (unlines ((c1 :: l1') :: ls)).length) (rl.length + 1) 0 hd rfl
    (by simp) (by simp; omega) hsp hcr
  have h3 := scanLoop_logicalLines r.header_ hn rest ((c1 :: l1') :: ls) (rl ++ ['\r', '\n'])
    (parseMethod r1 rl) (6 + rest.length) hne hgood (by rw [hbuf]; simp)
  have hpl : (rl ++ ['\r', '\n']).length = rl.length + 1 + 1 := by simp
  rw [hpl] at h3
  simp only [List.length_nil, Nat.zero_add] at h1 h2
  have hf : r.header_.length + 1 =
      6 + rest.length + (unlines ((c1 :: l1') :: ls)).length + 1 + (rl.length + 1 - 3) := by
    omega
  unfold scanHeaders
  simp only [hr1]
  rw [hf, h1, h2]
  simp only [if_true]
  rw [h3]

theorem parseHeader_foldedHeader (q : HttpRequest) (name v1 v2 : Bytes) (h : ':' ∉ name) :
    parseHeader q (foldedHeader name v1 v2) =
      { q with headers_ := mapAppend q.headers_ (munge name)
                 (trim (v1 ++ '\r' :: '\n' :: ' ' :: v2)) } := by
  simp [parseHeader, foldedHeader, split_append_cons name _ ':' h, trim_space_cons]

/-- C19: for a header written as `name: v1` CR LF, space, `v2` CR LF (no colon, CR or LF in
`name`, which does not begin with a space; no LF in `v1` and `v2`), standing anywhere among
the header lines of a request, the scan of `on_header` does not take the CR LF before the
continuation for a line boundary: the lines it hands to `parseHeader`, one call each and in
order, are the lines before, the whole text from `name` to the end of `v2`, and the lines
after.  That one call appends to the entry under `munge name` the trimmed text `v1` CR LF
space `v2`, which holds `v1` and `v2` in order, and touches nothing else: the continuation
line gets no entry of its own. -/
theorem on_header_folded_header (err : error_code) (xfer : Nat) (r : HttpRequest)
    (rl : Bytes) (before after : List Bytes) (name v1 v2 rest : Bytes) (herr : err.value = 0)
    (hbuf : r.header_ = rl ++ '\r' :: '\n' ::
      (unlines (before ++ foldedHeader name v1 v2 :: after) ++ '\r' :: '\n' :: rest))
    (hrl : 2 ≤ rl.length) (hrlnl : '\n' ∉ rl)
    (hbefore : ∀ l ∈ before, goodLine l) (hafter : ∀ l ∈ after, goodLine l)
    (hname : ':' ∉ name ∧ '\r' ∉ name ∧ '\n' ∉ name ∧ name.head? ≠ some ' ')
    (hv1 : '\n' ∉ v1) (hv2 : '\n' ∉ v2) (hn : r.header_.length < 2 ^ 64) :
    ∃ r2 r', scanHeaders xfer r = .ok r2 ∧ on_header err xfer r = .ok r' ∧
      r'.headers_ = r2.headers_ ∧
      r2.headers_ =
        ((before ++ foldedHeader name v1 v2 :: after).foldl parseHeader
          (parseMethod { r with headerSize_ := xfer, headerData_ := r.header_, header_ := [] }
            rl)).headers_ ∧
      ∀ q, parseHeader q (foldedHeader name v1 v2) =
        { q with headers_ := mapAppend q.headers_ (munge name)
                   (trim (v1 ++ '\r' :: '\n' :: ' ' :: v2)) } := by
  have hlines : ∀ l ∈ before ++ foldedHeader name v1 v2 :: after, logicalLine l := by
    intro l hl
    rcases List.mem_append.1 hl with h | h
    · exact logicalLine_of_goodLine l (hbefore l h)
    · rcases List.mem_cons.1 h with h | h
      · rw [h]
        exact logicalLine_foldedHeader name v1 v2 hname.2.1 hname.2.2.1 hname.2.2.2 hv1 hv2
      · exact logicalLine_of_goodLine l (hafter l h)
  have hscan := scanHeaders_logicalLines xfer r rl _ rest hbuf hrl hrlnl (by simp) hlines hn
  refine ⟨_, _, hscan, on_header_of_scan err xfer r _ herr hscan, ?_, rfl,
    fun q => parseHeader_foldedHeader q name v1 v2 hname.1⟩
  split <;> rfl

theorem on_header_folded_header_witness :
    ∃ r2 r', scanHeaders 47
        { header_ := "GET / HTTP/1.1\r\nHost: x\r\nA: b\r\n c\r\nD: e\r\n\r\n".toList } = .ok r2 ∧
      on_header errc_success 47
        { header_ := "GET / HTTP/1.1\r\nHost: x\r\nA: b\r\n c\r\nD: e\r\n\r\n".toList } = .ok r' ∧
      r'.headers_ = r2.headers_ ∧
      r2.headers_ =
        ((["Host: x".toList] ++ foldedHeader "A".toList "b".toList "c".toList ::
            ["D: e".toList]).foldl parseHeader
          (parseMethod
            { ({ header_ := "GET / HTTP/1.1\r\nHost: x\r\nA: b\r\n c\r\nD: e\r\n\r\n".toList } :
                HttpRequest) with
              headerSize_ := 47
              headerData_ := "GET / HTTP/1.1\r\nHost: x\r\nA: b\r\n c\r\nD: e\r\n\r\n".toList
              header_ := [] }
            "GET / HTTP/1.1".toList)).headers_ ∧
      ∀ q, parseHeader q (foldedHeader "A".toList "b".toList "c".toList) =
        { q with headers_ := mapAppend q.headers_ (munge "A".toList)
                   (trim ("b".toList ++ '\r' :: '\n' :: ' ' :: "c".toList)) } :=
  on_header_folded_header errc_success 47
    { header_ := "GET / HTTP/1.1\r\nHost: x\r\nA: b\r\n c\r\nD: e\r\n\r\n".toList }
    "GET / HTTP/1.1".toList ["Host: x".toList] ["D: e".toList] "A".toList "b".toList
    "c".toList [] rfl rfl (by decide) (by decide) (by decide) (by decide) (by decide)
    (by decide) (by decide) (by decide)

/-- The header map of the request above: one entry for the folded header `A`, whose value is
`b` CR LF space `c`, and none for the continuation line. -/
theorem on_header_folded_header_map :
    (on_header errc_success 47
        { header_ := "GET / HTTP/1.1\r\nHost: x\r\nA: b\r\n c\r\nD: e\r\n\r\n".toList }).map
      (fun r' => r'.headers_) =
      .ok [("host".toList, "x".toList), ("a".toList, "b\r\n c".toList),
        ("d".toList, "e".toList)] := by
  rfl

end HttpServer
